import Mathlib

/-!
Shallow embedding of the OVMS model-server core (src/src/model.hpp: the `Model`
class declarations and the `pipeline_factory.cpp` translation unit appended to it)
together with theorems about pipeline validation, per-request pipeline creation
and the model default-version rule.

Conventions of the embedding:
* `std::map` / `std::unordered_map` values are embedded as association lists;
  lookups are `List.find?` on the key.  C++ `operator[]` on an absent key yields
  the default (empty) value, embedded by `connLookup` returning `[]`.
* `tensor_map_t` (name → TensorInfo) is consulted by the validation code only
  through key membership (`find(name) == end()`), so it is embedded as the list
  of its keys.
* Status objects are embedded as the `StatusCode` enumeration; `!result.ok()`
  is `result ≠ OK` (for `Except`-valued calls, an `error` value).
* The unbounded `while` loop of `validateForCycles` is embedded with explicit
  fuel; the function returns `none` when fuel runs out, and the fuel supplied
  by `validateForCycles` is proved sufficient for the cases the theorems cover.
* C++ exceptions (`nodes.at` on a missing key) and undefined behaviour
  (dereferencing a null `entry`/`exit` pointer) in `PipelineDefinition::create`
  are embedded as a `none` result.
-/

namespace MS

/-- Status codes of ovms::StatusCode used by the embedded code (from status.hpp,
referenced throughout pipeline_factory.cpp and model.hpp). -/
inductive StatusCode where
  | OK
  | MODEL_MISSING
  | MODEL_NAME_MISSING
  | MODEL_VERSION_MISSING
  | MODEL_VERSION_NOT_LOADED_ANYMORE
  | MODEL_VERSION_NOT_LOADED_YET
  | INVALID_MISSING_OUTPUT
  | INVALID_MISSING_INPUT
  | FORBIDDEN_MODEL_DYNAMIC_PARAMETER
  | PIPELINE_DEFINITION_ALREADY_EXIST
  | PIPELINE_DEFINITION_NAME_MISSING
  | PIPELINE_DEFINITION_MISSING_DEPENDENCY_MAPPING
  | PIPELINE_NODE_WRONG_KIND_CONFIGURATION
  | PIPELINE_MULTIPLE_ENTRY_NODES
  | PIPELINE_MULTIPLE_EXIT_NODES
  | PIPELINE_MISSING_ENTRY_OR_EXIT
  | PIPELINE_NODE_NAME_DUPLICATE
  | PIPELINE_CYCLE_FOUND
  | PIPELINE_CONTAINS_UNCONNECTED_NODES
  | PIPELINE_MISSING_DEPENDENCY
  deriving DecidableEq, Repr

/-- Node kinds of pipeline nodes (ovms::NodeKind): ENTRY, DL, EXIT. -/
inductive NodeKind where
  | ENTRY
  | DL
  | EXIT
  deriving DecidableEq, Repr

/-- Batching / shape mode (ovms::Mode): FIXED or AUTO. -/
inductive Mode where
  | FIXED
  | AUTO
  deriving DecidableEq, Repr

/-- Shape entry of a ModelConfig; validation only consults its `shapeMode`. -/
structure ShapeInfo where
  shapeMode : Mode
  deriving DecidableEq, Repr

/-- The slice of ovms::ModelConfig consulted by pipeline validation:
`getBatchingMode()` and `getShapes()` (a name → ShapeInfo map, embedded as an
association list). -/
structure ModelConfig where
  batchingMode : Mode
  shapes : List (String × ShapeInfo)
  deriving DecidableEq, Repr

/-- Lifecycle state of a loaded model version (ovms::ModelVersionState). -/
inductive ModelVersionState where
  | BEGIN
  | LOADING
  | AVAILABLE
  | UNLOADING
  | END
  | LOADING_FAILED
  deriving DecidableEq, Repr

/-- One loaded version of a model (ovms::ModelInstance).  `inputsInfo` and
`outputsInfo` are the key sets of `getInputsInfo()` / `getOutputsInfo()`
(tensor_map_t), which validation consults only through key membership. -/
structure ModelInstance where
  name : String
  version : Nat
  state : ModelVersionState
  config : ModelConfig
  inputsInfo : List String
  outputsInfo : List String
  deriving DecidableEq, Repr

/-- The set of versions of one logical model (ovms::Model, src/src/model.hpp):
`modelVersions` is the std::map version → ModelInstance, `defaultVersion` the
currently advertised default (0 when undefined). -/
structure Model where
  name : String
  modelVersions : List (Nat × ModelInstance)
  defaultVersion : Nat
  deriving DecidableEq, Repr

/-- Registry of models by name (ovms::ModelManager's model map). -/
structure ModelManager where
  models : List (String × Model)
  deriving DecidableEq, Repr

/-- Declarative pipeline DAG node (ovms::NodeInfo): kind, unique node name, for
DL nodes the target model name and optional version, and the output-alias map
(alias → real output tensor name). -/
structure NodeInfo where
  kind : NodeKind
  nodeName : String
  modelName : String
  modelVersion : Option Nat
  outputNameAliases : List (String × String)
  deriving DecidableEq, Repr

/-- Tensor bindings carried by one edge: pairs (source output alias, destination
input name) — ovms::Aliases. -/
abbrev Aliases := List (String × String)

/-- ovms::pipeline_connections_t: dependant node name → (dependency node name →
bindings), embedded as nested association lists. -/
abbrev PipelineConnections := List (String × List (String × Aliases))

/-- C++ `connections[name]` (map operator[] read: the stored value, or the empty
map when the key is absent). -/
def connLookup (connections : PipelineConnections) (name : String) :
    List (String × Aliases) :=
  match connections.find? (fun kv => kv.1 == name) with
  | some kv => kv.2
  | none => []

/-- Modelled from the spec: `getModelInstance` (prediction_service_utils.hpp —
declared and called from src/src/model.hpp but its body is not under src/).
Spec §4.D `findModelInstance(name, version, out_instance, out_guard)`: resolves
`(name, version|default)` to an AVAILABLE instance and returns a LivenessGuard;
errors `MODEL_NAME_MISSING`, `MODEL_VERSION_MISSING`,
`MODEL_VERSION_NOT_LOADED_YET`, `MODEL_VERSION_NOT_LOADED_ANYMORE`.  Version 0
selects the model's default version (spec §4.E: "modelVersion or
0-for-default"); a version absent from the map is `MODEL_VERSION_MISSING`; a
present version accepts requests only in AVAILABLE state (spec §4.B). -/
def getModelInstance (manager : ModelManager) (modelName : String)
    (version : Nat) : Except StatusCode ModelInstance :=
  match manager.models.find? (fun kv => kv.1 == modelName) with
  | none => .error .MODEL_NAME_MISSING
  | some (_, model) =>
    let v := if version == 0 then model.defaultVersion else version
    match model.modelVersions.find? (fun kv => kv.1 == v) with
    | none => .error .MODEL_VERSION_MISSING
    | some (_, inst) =>
      match inst.state with
      | .AVAILABLE => .ok inst
      | .BEGIN => .error .MODEL_VERSION_NOT_LOADED_YET
      | .LOADING => .error .MODEL_VERSION_NOT_LOADED_YET
      | .LOADING_FAILED => .error .MODEL_VERSION_NOT_LOADED_YET
      | .UNLOADING => .error .MODEL_VERSION_NOT_LOADED_ANYMORE
      | .END => .error .MODEL_VERSION_NOT_LOADED_ANYMORE

/-- Decidable equality of Except values, used to evaluate resolution results on
concrete inputs. -/
instance {ε α : Type} [DecidableEq ε] [DecidableEq α] :
    DecidableEq (Except ε α) := fun x y =>
  match x, y with
  | .error a, .error b =>
    if h : a = b then isTrue (congrArg Except.error h)
    else isFalse (fun hc => h (Except.error.inj hc))
  | .error _, .ok _ => isFalse (fun hc => Except.noConfusion hc)
  | .ok _, .error _ => isFalse (fun hc => Except.noConfusion hc)
  | .ok a, .ok b =>
    if h : a = b then isTrue (congrArg Except.ok h)
    else isFalse (fun hc => h (Except.ok.inj hc))

/-- Alias expansion of PipelineDefinition::validateNode (model.hpp lines
332-339): if the alias is a key of the source node's output-alias map the
mapped real name is used, otherwise the alias itself (identity fallback). -/
def resolveOutputName (sourceNodeInfo : NodeInfo) (aliasName : String) : String :=
  match sourceNodeInfo.outputNameAliases.find? (fun kv => kv.1 == aliasName) with
  | some kv => kv.2
  | none => aliasName

/-- The binding loop of PipelineDefinition::validateNode (model.hpp lines
332-355): for each (alias, input) binding, resolve the alias and require the
resolved name among the source instance's outputs (else INVALID_MISSING_OUTPUT);
when the dependant node is not a DL node, `break` after the first binding;
otherwise also require the input name among the dependant's inputs (else
INVALID_MISSING_INPUT). -/
def checkBindings (sourceNodeInfo : NodeInfo) (sourceOutputs : List String)
    (nodeKind : NodeKind) (nodeInputs : List String) :
    Aliases → StatusCode
  | [] => .OK
  | (aliasName, inputName) :: rest =>
    let dependencyOutputName := resolveOutputName sourceNodeInfo aliasName
    if ¬ sourceOutputs.contains dependencyOutputName then
      .INVALID_MISSING_OUTPUT
    else if nodeKind ≠ NodeKind.DL then
      .OK
    else if ¬ nodeInputs.contains inputName then
      .INVALID_MISSING_INPUT
    else
      checkBindings sourceNodeInfo sourceOutputs nodeKind nodeInputs rest

/-- One iteration of the edge loop of PipelineDefinition::validateNode
(model.hpp lines 305-356): the source node must exist among the NodeInfos (else
MODEL_NAME_MISSING); if it is a DL node its model is resolved with version 0
(else MODEL_MISSING), the edge must carry at least one binding (else
PIPELINE_DEFINITION_MISSING_DEPENDENCY_MAPPING) and the bindings are checked;
edges from non-DL sources undergo no further checks. -/
def validateConnection (manager : ModelManager) (nodeInfos : List NodeInfo)
    (node : NodeInfo) (nodeInputs : List String)
    (connection : String × Aliases) : StatusCode :=
  match nodeInfos.find? (fun nodeInfo => nodeInfo.nodeName == connection.1) with
  | none => .MODEL_NAME_MISSING
  | some sourceNodeInfo =>
    if sourceNodeInfo.kind = NodeKind.DL then
      match getModelInstance manager sourceNodeInfo.modelName 0 with
      | .error _ => .MODEL_MISSING
      | .ok sourceNodeModelInstance =>
        if connection.2 = [] then
          .PIPELINE_DEFINITION_MISSING_DEPENDENCY_MAPPING
        else
          checkBindings sourceNodeInfo sourceNodeModelInstance.outputsInfo
            node.kind nodeInputs connection.2
    else
      .OK

/-- The edge loop of PipelineDefinition::validateNode: each edge is checked in
turn and the first non-OK status is returned. -/
def validateConnections (manager : ModelManager) (nodeInfos : List NodeInfo)
    (node : NodeInfo) (nodeInputs : List String) :
    List (String × Aliases) → StatusCode
  | [] => .OK
  | connection :: rest =>
    let r := validateConnection manager nodeInfos node nodeInputs connection
    if r ≠ StatusCode.OK then r
    else validateConnections manager nodeInfos node nodeInputs rest

/-- PipelineDefinition::validateNode (model.hpp lines 273-359): for a DL node,
resolve its model (with `modelVersion.value_or(0)`; any failure is reported as
MODEL_NAME_MISSING), forbid dynamic batch size and dynamic shapes
(FORBIDDEN_MODEL_DYNAMIC_PARAMETER), then check every edge whose dependant is
this node. -/
def validateNode (manager : ModelManager) (nodeInfos : List NodeInfo)
    (connections : PipelineConnections) (node : NodeInfo) : StatusCode :=
  if node.kind = NodeKind.DL then
    match getModelInstance manager node.modelName (node.modelVersion.getD 0) with
    | .error _ => .MODEL_NAME_MISSING
    | .ok nodeModelInstance =>
      if nodeModelInstance.config.batchingMode = Mode.AUTO then
        .FORBIDDEN_MODEL_DYNAMIC_PARAMETER
      else if nodeModelInstance.config.shapes.any
          (fun s => s.2.shapeMode == Mode.AUTO) then
        .FORBIDDEN_MODEL_DYNAMIC_PARAMETER
      else
        validateConnections manager nodeInfos node
          nodeModelInstance.inputsInfo (connLookup connections node.nodeName)
  else
    validateConnections manager nodeInfos node []
      (connLookup connections node.nodeName)

/-- Loop body of PipelineDefinition::validateNodes (model.hpp lines 428-465):
per node, in list order: node-name duplicate check, then validateNode, then
multiple-Entry/Exit detection; after the loop, missing Entry and missing Exit. -/
def validateNodesGo (manager : ModelManager) (allNodeInfos : List NodeInfo)
    (connections : PipelineConnections) :
    List NodeInfo → Bool → Bool → StatusCode
  | [], entryFound, exitFound =>
    if !entryFound then .PIPELINE_MISSING_ENTRY_OR_EXIT
    else if !exitFound then .PIPELINE_MISSING_ENTRY_OR_EXIT
    else .OK
  | node :: rest, entryFound, exitFound =>
    if allNodeInfos.countP (fun nodeInfo => nodeInfo.nodeName == node.nodeName) > 1 then
      .PIPELINE_NODE_NAME_DUPLICATE
    else
      let r := validateNode manager allNodeInfos connections node
      if r ≠ StatusCode.OK then r
      else if node.kind == NodeKind.ENTRY && entryFound then
        .PIPELINE_MULTIPLE_ENTRY_NODES
      else if node.kind == NodeKind.EXIT && exitFound then
        .PIPELINE_MULTIPLE_EXIT_NODES
      else
        validateNodesGo manager allNodeInfos connections rest
          (entryFound || node.kind == NodeKind.ENTRY)
          (exitFound || node.kind == NodeKind.EXIT)

/-- PipelineDefinition::validateNodes (model.hpp lines 428-465). -/
def validateNodes (manager : ModelManager) (nodeInfos : List NodeInfo)
    (connections : PipelineConnections) : StatusCode :=
  validateNodesGo manager nodeInfos connections nodeInfos false false

/-- Names of the dependencies of a node, in the order the for-loop of
validateForCycles visits them (`connections[nodeName]`). -/
def predNames (connections : PipelineConnections) (name : String) : List String :=
  (connLookup connections name).map (fun kv => kv.1)

/-- Outcome of one pass of the inner for-loop of validateForCycles over the
dependencies of the current node. -/
inductive ScanResult where
  | cycleSelf
  | cycleBack
  | descend (next : String)
  | clean
  deriving DecidableEq, Repr

/-- Inner for-loop of PipelineDefinition::validateForCycles (model.hpp lines
385-410): for each dependency of the current node, in order: a self loop is a
cycle; an unvisited dependency is descended into; a visited dependency on the
active path (parentNodes) is a cycle; otherwise continue scanning. -/
def scanPreds (visited parentNodes : List String) (nodeName : String) :
    List String → ScanResult
  | [] => .clean
  | p :: rest =>
    if nodeName == p then .cycleSelf
    else if ¬ visited.contains p then .descend p
    else if parentNodes.contains p then .cycleBack
    else scanPreds visited parentNodes nodeName rest

/-- Outer while-loop of PipelineDefinition::validateForCycles (model.hpp lines
382-424), with explicit fuel.  The C++ vector `parentNodes` grows and shrinks at
the back; the embedding keeps the most recent parent at the head of the list.
`none` means the fuel ran out (the theorems prove the fuel supplied by
`validateForCycles` suffices). -/
def cyclesLoop (connections : PipelineConnections) (numNodes : Nat) :
    Nat → List String → List String → String → Option StatusCode
  | 0, _, _, _ => none
  | fuel + 1, visited, parentNodes, nodeName =>
    match scanPreds visited parentNodes nodeName (predNames connections nodeName) with
    | .cycleSelf => some .PIPELINE_CYCLE_FOUND
    | .cycleBack => some .PIPELINE_CYCLE_FOUND
    | .descend p =>
      cyclesLoop connections numNodes fuel (visited ++ [p])
        (nodeName :: parentNodes) p
    | .clean =>
      match parentNodes with
      | [] =>
        if visited.length ≠ numNodes then
          some .PIPELINE_CONTAINS_UNCONNECTED_NODES
        else
          some .OK
      | q :: ps => cyclesLoop connections numNodes fuel visited ps q

/-- Fuel bound for `cyclesLoop`: the loop visits at most the Exit node plus one
node per dependency entry, and performs at most one descend and one pop per
visited node. -/
def cyclesFuel (nodeInfos : List NodeInfo) (connections : PipelineConnections) :
    Nat :=
  2 * (nodeInfos.length + (connections.map (fun kv => kv.2.length)).sum + 1) + 2

/-- PipelineDefinition::validateForCycles (model.hpp lines 363-426): find the
Exit node (else PIPELINE_MISSING_ENTRY_OR_EXIT) and run the iterative DFS over
the transposed graph starting there. -/
def validateForCycles (nodeInfos : List NodeInfo)
    (connections : PipelineConnections) : Option StatusCode :=
  match nodeInfos.find? (fun nodeInfo => nodeInfo.kind == NodeKind.EXIT) with
  | none => some .PIPELINE_MISSING_ENTRY_OR_EXIT
  | some exitInfo =>
    cyclesLoop connections nodeInfos.length
      (cyclesFuel nodeInfos connections) [exitInfo.nodeName] [] exitInfo.nodeName

/-- PipelineFactory::createDefinition (model.hpp lines 467-491): duplicate
pipeline names are rejected, then validateNodes, then validateForCycles; on
success the definition is published and OK returned. -/
def createDefinition (existingDefinitions : List String) (pipelineName : String)
    (nodeInfos : List NodeInfo) (connections : PipelineConnections)
    (manager : ModelManager) : Option StatusCode :=
  if existingDefinitions.contains pipelineName then
    some .PIPELINE_DEFINITION_ALREADY_EXIST
  else
    let r := validateNodes manager nodeInfos connections
    if r ≠ StatusCode.OK then some r
    else
      match validateForCycles nodeInfos connections with
      | none => none
      | some c => if c ≠ StatusCode.OK then some c else some .OK

/-- Version numbers of the instances currently in AVAILABLE state. -/
def availableVersions (modelVersions : List (Nat × ModelInstance)) : List Nat :=
  (modelVersions.filter
    (fun kv => kv.2.state == ModelVersionState.AVAILABLE)).map (fun kv => kv.1)

/-- Modelled from the spec: Model::updateDefaultVersion (declared at
src/src/model.hpp line 41; body not under src/).  Spec §4.C default-version
rule: "after any mutation, recompute the default as the numerically highest
version whose instance is in AVAILABLE state.  If no such version exists, the
default is undefined (0)". -/
def Model.updateDefaultVersion (m : Model) : Model :=
  { m with defaultVersion :=
      (availableVersions m.modelVersions).foldl max 0 }

/-- Modelled from the spec: Model::addVersions (declared at src/src/model.hpp
line 156; body not under src/).  Spec §4.C: "for each v in newVersions absent
from the map, constructs a fresh ModelInstance and invokes load(config); ... a
failed load leaves a LOADING_FAILED instance in the map"; the default version
is then recomputed.  `loadOk v` is the backend's verdict for version v and
`loadedNames v` the input/output name sets the backend declares on success. -/
def Model.addVersions (m : Model) (versions : List Nat) (config : ModelConfig)
    (loadOk : Nat → Bool) (loadedNames : Nat → List String × List String) : Model :=
  let fresh := versions.filter
    (fun v => ¬ m.modelVersions.any (fun kv => kv.1 == v))
  Model.updateDefaultVersion
    { m with modelVersions := m.modelVersions ++ fresh.map (fun v =>
        (v, { name := m.name, version := v,
              state := if loadOk v then ModelVersionState.AVAILABLE
                       else ModelVersionState.LOADING_FAILED,
              config := config,
              inputsInfo := (loadedNames v).1,
              outputsInfo := (loadedNames v).2 })) }

/-- Modelled from the spec: Model::retireVersions (declared at
src/src/model.hpp line 165; body not under src/).  Spec §4.C: "for each v in
oldVersions present in the map, invokes unload() on the instance.  The instance
remains in the map in END state"; the default version is then recomputed. -/
def Model.retireVersions (m : Model) (versions : List Nat) : Model :=
  Model.updateDefaultVersion
    { m with modelVersions := m.modelVersions.map (fun kv =>
        if versions.contains kv.1 then
          (kv.1, { kv.2 with state := ModelVersionState.END })
        else kv) }

/-- Modelled from the spec: Model::reloadVersions (declared at
src/src/model.hpp line 179; body not under src/).  Spec §4.C/§4.B: reload is
atomic — on success the instance becomes AVAILABLE under the new config, on
failure the old instance is preserved; the default version is then
recomputed. -/
def Model.reloadVersions (m : Model) (versions : List Nat) (config : ModelConfig)
    (reloadOk : Nat → Bool) : Model :=
  Model.updateDefaultVersion
    { m with modelVersions := m.modelVersions.map (fun kv =>
        if versions.contains kv.1 then
          if reloadOk kv.1 then
            (kv.1, { kv.2 with
                     state := ModelVersionState.AVAILABLE,
                     config := config })
          else kv
        else kv) }

/-- All AVAILABLE instances of a manager, with their model name and version:
the set the spec's monotonicity property quantifies over. -/
def availableInstances (manager : ModelManager) :
    List (String × Nat × ModelInstance) :=
  manager.models.flatMap (fun kv =>
    kv.2.modelVersions.filterMap (fun vi =>
      if vi.2.state == ModelVersionState.AVAILABLE then
        some (kv.1, vi.1, vi.2)
      else none))

/-- Runtime pipeline node built by PipelineDefinition::create: EntryNode wraps
the request, DLNode carries (node name, model name, optional version, alias
map, manager reference), ExitNode wraps the response. -/
inductive PNode where
  | entry (nodeName : String)
  | dl (nodeName modelName : String) (modelVersion : Option Nat)
      (outputNameAliases : List (String × String))
  | exitNode (nodeName : String)
  deriving DecidableEq, Repr

/-- The per-request Pipeline object built by PipelineDefinition::create. -/
structure Pipeline where
  pipelineName : String
  entryName : String
  exitName : String
  nodes : List PNode
  deriving DecidableEq, Repr

/-- PipelineDefinition::create (model.hpp lines 223-271): build one runtime
node per NodeInfo (the `entry`/`exit` raw pointers end up at the last
ENTRY/EXIT NodeInfo), wire the connections (`nodes.at` throws std::out_of_range
when an edge references a missing node name — embedded as `none`), then build
the Pipeline from `*entry` and `*exit` (undefined behaviour when no ENTRY or no
EXIT node exists — embedded as `none`).  The manager is only stored inside the
DL nodes; no model instance is resolved and no liveness guard is acquired. -/
def create (pipelineName : String) (nodeInfos : List NodeInfo)
    (connections : PipelineConnections) (manager : ModelManager) :
    Option (Pipeline × StatusCode) :=
  let names := nodeInfos.map (fun nodeInfo => nodeInfo.nodeName)
  let nodes := nodeInfos.map (fun info =>
    match info.kind with
    | .ENTRY => PNode.entry info.nodeName
    | .DL => PNode.dl info.nodeName info.modelName info.modelVersion
        info.outputNameAliases
    | .EXIT => PNode.exitNode info.nodeName)
  if connections.all (fun kv =>
      names.contains kv.1 && kv.2.all (fun dep => names.contains dep.1)) then
    match (nodeInfos.filter (fun i => i.kind == NodeKind.ENTRY)).getLast?,
        (nodeInfos.filter (fun i => i.kind == NodeKind.EXIT)).getLast? with
    | some e, some x =>
      some ({ pipelineName := pipelineName, entryName := e.nodeName,
              exitName := x.nodeName, nodes := nodes }, .OK)
    | _, _ => none
  else
    none

/-! ## Concrete fixtures used by counterexamples and witnesses -/

/-- A fixed-batch, fixed-shape model configuration. -/
def exCfgFixed : ModelConfig := { batchingMode := .FIXED, shapes := [] }

/-- A configuration with dynamic (AUTO) batch size. -/
def exCfgAuto : ModelConfig := { batchingMode := .AUTO, shapes := [] }

/-- Version 1 of model "m": AVAILABLE, input input0, output detection_out. -/
def exInstDet : ModelInstance :=
  { name := "m", version := 1, state := .AVAILABLE, config := exCfgFixed,
    inputsInfo := ["input0"], outputsInfo := ["detection_out"] }

/-- A manager serving model "m" with the single AVAILABLE version 1. -/
def exMgr : ModelManager :=
  { models := [("m", { name := "m", modelVersions := [(1, exInstDet)],
                       defaultVersion := 1 })] }

/-- Entry NodeInfo named request. -/
def exEntry : NodeInfo :=
  { kind := .ENTRY, nodeName := "request", modelName := "",
    modelVersion := none, outputNameAliases := [] }

/-- DL NodeInfo a over model "m" with alias faces → detection_out. -/
def exDlA : NodeInfo :=
  { kind := .DL, nodeName := "a", modelName := "m", modelVersion := none,
    outputNameAliases := [("faces", "detection_out")] }

/-- Exit NodeInfo named response. -/
def exExit : NodeInfo :=
  { kind := .EXIT, nodeName := "response", modelName := "",
    modelVersion := none, outputNameAliases := [] }

/-- Edges request→a (binding (x, input0)) and a→response (binding
(faces, resp)). -/
def exConnsMain : PipelineConnections :=
  [("a", [("request", [("x", "input0")])]),
   ("response", [("a", [("faces", "resp")])])]

/-- The three-node pipeline request→a→response. -/
def exNodes : List NodeInfo := [exEntry, exDlA, exExit]

/-! ## Helper lemmas -/

/-- If the validateNodes loop returns OK, every node it processed passed
validateNode. -/
lemma validateNodesGo_ok (manager : ModelManager) (allNodeInfos : List NodeInfo)
    (connections : PipelineConnections) :
    ∀ (l : List NodeInfo) (entryFound exitFound : Bool),
      validateNodesGo manager allNodeInfos connections l entryFound exitFound =
        StatusCode.OK →
      ∀ n ∈ l, validateNode manager allNodeInfos connections n = StatusCode.OK := by
  intro l
  induction l with
  | nil => intro _ _ _ n hn; simp at hn
  | cons hd tl ih =>
    intro eF xF h n hn
    simp only [validateNodesGo] at h
    split at h
    · exact absurd h (by decide)
    · split at h
      · rename_i hne
        exact absurd h hne
      · rename_i hok
        split at h
        · exact absurd h (by decide)
        · split at h
          · exact absurd h (by decide)
          · rcases List.mem_cons.1 hn with hn | hn
            · subst hn
              simpa using hok
            · exact ih _ _ h n hn

/-- If validateNodes returns OK, every node of the definition passed
validateNode. -/
lemma validateNodes_ok (manager : ModelManager) (nodeInfos : List NodeInfo)
    (connections : PipelineConnections)
    (h : validateNodes manager nodeInfos connections = StatusCode.OK) :
    ∀ n ∈ nodeInfos, validateNode manager nodeInfos connections n = StatusCode.OK :=
  validateNodesGo_ok manager nodeInfos connections nodeInfos false false h

/-! ## C6 — dynamic batch size or dynamic shape is forbidden for DL nodes -/

/-- C6: for every DL node of a pipeline definition whose resolved ModelInstance
has dynamic batching (batch_size auto) or any dynamic shape (shape auto),
validateNode returns FORBIDDEN_MODEL_DYNAMIC_PARAMETER, and consequently the
definition's validation does not succeed. -/
theorem claim_C6 (manager : ModelManager) (nodeInfos : List NodeInfo)
    (connections : PipelineConnections) (node : NodeInfo) (inst : ModelInstance)
    (hmem : node ∈ nodeInfos)
    (hkind : node.kind = NodeKind.DL)
    (hres : getModelInstance manager node.modelName (node.modelVersion.getD 0) =
      .ok inst)
    (hdyn : inst.config.batchingMode = Mode.AUTO ∨
      ∃ s ∈ inst.config.shapes, s.2.shapeMode = Mode.AUTO) :
    validateNode manager nodeInfos connections node =
      StatusCode.FORBIDDEN_MODEL_DYNAMIC_PARAMETER ∧
    validateNodes manager nodeInfos connections ≠ StatusCode.OK := by
  have hv : validateNode manager nodeInfos connections node =
      StatusCode.FORBIDDEN_MODEL_DYNAMIC_PARAMETER := by
    unfold validateNode
    rw [if_pos hkind, hres]
    dsimp only
    by_cases hb : inst.config.batchingMode = Mode.AUTO
    · rw [if_pos hb]
    · rw [if_neg hb]
      rcases hdyn with hdyn | ⟨s, hs, hauto⟩
      · exact absurd hdyn hb
      · have : inst.config.shapes.any (fun s => s.2.shapeMode == Mode.AUTO) = true := by
          refine List.any_eq_true.2 ⟨s, hs, ?_⟩
          simp [hauto]
        rw [if_pos this]
  refine ⟨hv, fun hOK => ?_⟩
  have := validateNodes_ok manager nodeInfos connections hOK node hmem
  rw [hv] at this
  exact absurd this (by decide)

/-- Version 1 of model "m" loaded with batch_size auto. -/
def exInstAuto : ModelInstance := { exInstDet with config := exCfgAuto }

/-- A manager whose model "m" uses dynamic batching. -/
def exMgrAuto : ModelManager :=
  { models := [("m", { name := "m", modelVersions := [(1, exInstAuto)],
                       defaultVersion := 1 })] }

theorem claim_C6_witness :
    validateNode exMgrAuto exNodes exConnsMain exDlA =
      StatusCode.FORBIDDEN_MODEL_DYNAMIC_PARAMETER ∧
    validateNodes exMgrAuto exNodes exConnsMain ≠ StatusCode.OK :=
  claim_C6 exMgrAuto exNodes exConnsMain exDlA exInstAuto
    (by decide) (by decide) (by rfl) (Or.inl (by decide))

/-! ## C10 — source models are resolved with version 0; failure is
MODEL_MISSING -/

/-- The binding checks read only the source NodeInfo's output-alias map, never
its modelVersion. -/
lemma checkBindings_modelVersion (s : NodeInfo) (v : Option Nat)
    (outs : List String) (k : NodeKind) (ins : List String) :
    ∀ l : Aliases,
      checkBindings { s with modelVersion := v } outs k ins l =
      checkBindings s outs k ins l := by
  intro l
  induction l with
  | nil => rfl
  | cons b rest ih =>
    obtain ⟨a, i⟩ := b
    simp only [checkBindings, resolveOutputName]
    split_ifs <;> simp [ih]

/-- Changing only the modelVersion fields of the NodeInfos does not change the
outcome of a single edge check: the source model is always resolved with
version 0. -/
lemma validateConnection_map_version (manager : ModelManager)
    (nodeInfos : List NodeInfo) (node : NodeInfo) (nodeInputs : List String)
    (connection : String × Aliases) (f : NodeInfo → Option Nat) :
    validateConnection manager
      (nodeInfos.map (fun ni => { ni with modelVersion := f ni })) node
      nodeInputs connection =
    validateConnection manager nodeInfos node nodeInputs connection := by
  unfold validateConnection
  rw [List.find?_map]
  have hcomp : ((fun nodeInfo => nodeInfo.nodeName == connection.1) ∘
      (fun ni => { ni with modelVersion := f ni })) =
      (fun nodeInfo : NodeInfo => nodeInfo.nodeName == connection.1) := rfl
  rw [hcomp]
  cases hf : nodeInfos.find? (fun nodeInfo => nodeInfo.nodeName == connection.1) with
  | none => rfl
  | some sourceNodeInfo =>
    dsimp only [Option.map]
    by_cases hk : sourceNodeInfo.kind = NodeKind.DL
    · rw [if_pos hk, if_pos hk]
      cases hres : getModelInstance manager sourceNodeInfo.modelName 0 with
      | error e => rfl
      | ok inst =>
        dsimp only
        by_cases hb : connection.2 = []
        · rw [if_pos hb, if_pos hb]
        · rw [if_neg hb, if_neg hb]
          exact checkBindings_modelVersion sourceNodeInfo (f sourceNodeInfo)
            inst.outputsInfo node.kind nodeInputs connection.2
    · rw [if_neg hk, if_neg hk]

/-- Edge-loop version of `validateConnection_map_version`. -/
lemma validateConnections_map_version (manager : ModelManager)
    (nodeInfos : List NodeInfo) (node : NodeInfo) (nodeInputs : List String)
    (f : NodeInfo → Option Nat) :
    ∀ l : List (String × Aliases),
      validateConnections manager
        (nodeInfos.map (fun ni => { ni with modelVersion := f ni })) node
        nodeInputs l =
      validateConnections manager nodeInfos node nodeInputs l := by
  intro l
  induction l with
  | nil => rfl
  | cons c rest ih =>
    simp only [validateConnections,
      validateConnection_map_version manager nodeInfos node nodeInputs c f, ih]

/-- C10: during edge validation the source node's model is resolved with
version 0 (the default), never with the modelVersion declared in the source
NodeInfo — the outcome of validateNode is invariant under arbitrary changes of
every NodeInfo's modelVersion (the validated node's own resolution reads its
version from the `node` argument, not from the list) — and when the version-0
resolution of a DL source fails, the edge check stops with MODEL_MISSING. -/
theorem claim_C10 (manager : ModelManager) (nodeInfos : List NodeInfo)
    (connections : PipelineConnections) (node : NodeInfo)
    (f : NodeInfo → Option Nat) :
    (validateNode manager
        (nodeInfos.map (fun ni => { ni with modelVersion := f ni }))
        connections node =
      validateNode manager nodeInfos connections node) ∧
    (∀ (nodeInputs : List String) (sourceName : String) (bindings : Aliases)
        (rest : List (String × Aliases)) (sourceNodeInfo : NodeInfo)
        (e : StatusCode),
      nodeInfos.find? (fun ni => ni.nodeName == sourceName) = some sourceNodeInfo →
      sourceNodeInfo.kind = NodeKind.DL →
      getModelInstance manager sourceNodeInfo.modelName 0 = .error e →
      validateConnections manager nodeInfos node nodeInputs
        ((sourceName, bindings) :: rest) = StatusCode.MODEL_MISSING) := by
  constructor
  · unfold validateNode
    by_cases hk : node.kind = NodeKind.DL
    · rw [if_pos hk, if_pos hk]
      cases hres : getModelInstance manager node.modelName (node.modelVersion.getD 0) with
      | error e => rfl
      | ok inst =>
        dsimp only
        by_cases hb : inst.config.batchingMode = Mode.AUTO
        · rw [if_pos hb, if_pos hb]
        · rw [if_neg hb, if_neg hb]
          by_cases hs : inst.config.shapes.any (fun s => s.2.shapeMode == Mode.AUTO)
          · rw [if_pos hs, if_pos hs]
          · rw [if_neg hs, if_neg hs]
            exact validateConnections_map_version manager nodeInfos node
              inst.inputsInfo f (connLookup connections node.nodeName)
    · rw [if_neg hk, if_neg hk]
      exact validateConnections_map_version manager nodeInfos node [] f
        (connLookup connections node.nodeName)
  · intro nodeInputs sourceName bindings rest sourceNodeInfo e hfind hkind hres
    simp only [validateConnections, validateConnection, hfind, if_pos hkind, hres]
    rw [if_pos (by decide)]

/-- Witness for C10: remapping every modelVersion to 42 leaves validation of
the concrete pipeline unchanged, and a DL source whose model is absent from
the manager yields MODEL_MISSING. -/
theorem claim_C10_witness :
    (validateNode exMgr
        (exNodes.map (fun ni => { ni with modelVersion := some 42 }))
        exConnsMain exDlA =
      validateNode exMgr exNodes exConnsMain exDlA) ∧
    validateConnections { models := [] } exNodes exExit []
      [("a", [("faces", "resp")])] = StatusCode.MODEL_MISSING :=
  ⟨(claim_C10 exMgr exNodes exConnsMain exDlA (fun _ => some 42)).1,
   (claim_C10 { models := [] } exNodes exConnsMain exExit (fun _ => some 42)).2
     [] "a" [("faces", "resp")] [] exDlA StatusCode.MODEL_NAME_MISSING
     (by decide) (by decide) (by rfl)⟩

/-! ## C4 — a missing source node yields MODEL_NAME_MISSING (not
PIPELINE_MISSING_DEPENDENCY) -/

/-- Counterexample to C4 as stated: a pipeline whose only edge names the
nonexistent source node ghost fails validation with MODEL_NAME_MISSING, not
with PIPELINE_MISSING_DEPENDENCY (model.hpp line 314 returns
StatusCode::MODEL_NAME_MISSING). -/
theorem claim_C4_counterexample :
    (∀ ni ∈ [exEntry, exExit], ni.nodeName ≠ "ghost") ∧
    validateNodes exMgr [exEntry, exExit]
      [("response", [("ghost", [("faces", "resp")])])] =
      StatusCode.MODEL_NAME_MISSING ∧
    StatusCode.MODEL_NAME_MISSING ≠ StatusCode.PIPELINE_MISSING_DEPENDENCY := by
  refine ⟨by decide, by decide, by decide⟩

/-- C4 (amended): for every edge whose named source node does not exist among
the definition's NodeInfos, the edge check fails with MODEL_NAME_MISSING (the
status the code returns at model.hpp line 314; the status name
PIPELINE_MISSING_DEPENDENCY does not appear in this code), and validateNode
surfaces it when such an edge comes first. -/
theorem claim_C4 (manager : ModelManager) (nodeInfos : List NodeInfo)
    (node : NodeInfo) (nodeInputs : List String) (sourceName : String)
    (bindings : Aliases) (rest : List (String × Aliases))
    (habsent : ∀ ni ∈ nodeInfos, ni.nodeName ≠ sourceName) :
    validateConnection manager nodeInfos node nodeInputs
      (sourceName, bindings) = StatusCode.MODEL_NAME_MISSING ∧
    validateConnections manager nodeInfos node nodeInputs
      ((sourceName, bindings) :: rest) = StatusCode.MODEL_NAME_MISSING := by
  have hfind : nodeInfos.find? (fun ni => ni.nodeName == sourceName) = none := by
    refine List.find?_eq_none.2 ?_
    intro ni hni
    simpa using habsent ni hni
  have h1 : validateConnection manager nodeInfos node nodeInputs
      (sourceName, bindings) = StatusCode.MODEL_NAME_MISSING := by
    unfold validateConnection
    rw [hfind]
  refine ⟨h1, ?_⟩
  simp only [validateConnections, h1]
  rw [if_pos (by decide)]

theorem claim_C4_witness :
    (∀ ni ∈ exNodes, ni.nodeName ≠ "ghost") ∧
    validateConnection exMgr exNodes exExit [] ("ghost", [("faces", "resp")]) =
      StatusCode.MODEL_NAME_MISSING ∧
    validateConnections exMgr exNodes exExit []
      [("ghost", [("faces", "resp")])] = StatusCode.MODEL_NAME_MISSING :=
  ⟨by decide,
   (claim_C4 exMgr exNodes exExit [] "ghost" [("faces", "resp")] [] (by decide)).1,
   (claim_C4 exMgr exNodes exExit [] "ghost" [("faces", "resp")] [] (by decide)).2⟩

/-! ## C5 — the zero-binding check only guards edges whose source is a DL
node -/

/-- Counterexample to C5 as stated: the edge request→response carries zero
tensor bindings, yet the whole definition (validateNodes and validateForCycles,
as run by PipelineFactory::createDefinition) validates OK, because the
emptiness check at model.hpp line 327 sits inside the
`sourceNodeInfo->kind == NodeKind::DL` branch and the source here is the Entry
node. -/
theorem claim_C5_counterexample :
    ("request", ([] : Aliases)) ∈
      connLookup [("response", [("request", [])])] "response" ∧
    createDefinition [] "p" [exEntry, exExit]
      [("response", [("request", [])])] exMgr = some StatusCode.OK := by
  refine ⟨by decide, by decide⟩

/-- C5 (amended): an edge with zero tensor bindings fails with
PIPELINE_DEFINITION_MISSING_DEPENDENCY_MAPPING only when its source node is a
DL node whose model resolves; an edge whose source is not a DL node undergoes
no binding checks at all and passes, bindings or not. -/
theorem claim_C5 (manager : ModelManager) (nodeInfos : List NodeInfo)
    (node : NodeInfo) (nodeInputs : List String) (sourceName : String)
    (sourceNodeInfo : NodeInfo)
    (hfind : nodeInfos.find? (fun ni => ni.nodeName == sourceName) =
      some sourceNodeInfo) :
    (∀ inst : ModelInstance,
      sourceNodeInfo.kind = NodeKind.DL →
      getModelInstance manager sourceNodeInfo.modelName 0 = .ok inst →
      validateConnection manager nodeInfos node nodeInputs (sourceName, []) =
        StatusCode.PIPELINE_DEFINITION_MISSING_DEPENDENCY_MAPPING) ∧
    (∀ bindings : Aliases,
      sourceNodeInfo.kind ≠ NodeKind.DL →
      validateConnection manager nodeInfos node nodeInputs
        (sourceName, bindings) = StatusCode.OK) := by
  constructor
  · intro inst hkind hres
    unfold validateConnection
    rw [hfind]
    dsimp only
    rw [if_pos hkind, hres]
    dsimp only
    rw [if_pos rfl]
  · intro bindings hkind
    unfold validateConnection
    rw [hfind]
    dsimp only
    rw [if_neg hkind]

theorem claim_C5_witness :
    validateConnection exMgr exNodes exExit [] ("a", []) =
      StatusCode.PIPELINE_DEFINITION_MISSING_DEPENDENCY_MAPPING ∧
    validateConnection exMgr exNodes exExit [] ("request", []) =
      StatusCode.OK :=
  ⟨(claim_C5 exMgr exNodes exExit [] "a" exDlA (by decide)).1 exInstDet
     (by decide) (by rfl),
   (claim_C5 exMgr exNodes exExit [] "request" exEntry (by decide)).2 []
     (by decide)⟩

/-! ## C3 — alias resolution and the INVALID_MISSING_OUTPUT check -/

/-- Edges of the C3 counterexample: a→response carries a second binding whose
alias `unknown` resolves (by identity fallback) to a name that is not an output
of model "m". -/
def exConnsC3 : PipelineConnections :=
  [("a", [("request", [("x", "input0")])]),
   ("response", [("a", [("detection_out", "r1"), ("unknown", "r2")])])]

/-- Counterexample to C3 as stated: the binding (unknown, r2) on the DL-sourced
edge a→response resolves to an output name absent from the source instance's
declared outputs, yet the whole definition validates OK — the binding loop
`break`s after the first binding because the destination (the Exit node) is not
a DL node (model.hpp lines 346-348). -/
theorem claim_C3_counterexample :
    ("unknown", "r2") ∈ (connLookup exConnsC3 "response").flatMap
      (fun kv => kv.2) ∧
    ¬ exInstDet.outputsInfo.contains (resolveOutputName exDlA "unknown") ∧
    validateNodes exMgr exNodes exConnsC3 = StatusCode.OK ∧
    createDefinition [] "p" exNodes exConnsC3 exMgr = some StatusCode.OK := by
  refine ⟨by decide, by decide, by decide, by decide⟩

/-- C3 (amended): bindings of a DL-sourced edge are checked in list order; each
checked binding's sourceAlias is resolved through the source node's
output-alias map when the alias key is present and falls back to the alias
itself otherwise, and a checked binding whose resolved name is missing from the
source instance's outputs fails with INVALID_MISSING_OUTPUT.  When the
destination node is a DL node every binding is checked; when it is not, only
the first binding is checked (the loop breaks), so later unresolvable bindings
are not detected. -/
theorem claim_C3 (sourceNodeInfo : NodeInfo) (sourceOutputs : List String)
    (nodeInputs : List String) :
    (∀ (aliasName realName : String),
      sourceNodeInfo.outputNameAliases.find?
          (fun kv => kv.1 == aliasName) = some (aliasName, realName) →
      resolveOutputName sourceNodeInfo aliasName = realName) ∧
    (∀ aliasName : String,
      sourceNodeInfo.outputNameAliases.find?
          (fun kv => kv.1 == aliasName) = none →
      resolveOutputName sourceNodeInfo aliasName = aliasName) ∧
    (∀ (kind : NodeKind) (aliasName inputName : String) (rest : Aliases),
      ¬ sourceOutputs.contains (resolveOutputName sourceNodeInfo aliasName) →
      checkBindings sourceNodeInfo sourceOutputs kind nodeInputs
        ((aliasName, inputName) :: rest) = StatusCode.INVALID_MISSING_OUTPUT) ∧
    (∀ (kind : NodeKind) (b : String × String) (rest : Aliases),
      kind ≠ NodeKind.DL →
      checkBindings sourceNodeInfo sourceOutputs kind nodeInputs (b :: rest) =
      checkBindings sourceNodeInfo sourceOutputs kind nodeInputs [b]) ∧
    (∀ bindings : Aliases,
      checkBindings sourceNodeInfo sourceOutputs NodeKind.DL nodeInputs
          bindings = StatusCode.OK ↔
      ∀ b ∈ bindings,
        sourceOutputs.contains (resolveOutputName sourceNodeInfo b.1) ∧
        nodeInputs.contains b.2) := by
  refine ⟨?_, ?_, ?_, ?_, ?_⟩
  · intro aliasName realName hfind
    unfold resolveOutputName
    rw [hfind]
  · intro aliasName hfind
    unfold resolveOutputName
    rw [hfind]
  · intro kind aliasName inputName rest hmiss
    unfold checkBindings
    rw [if_pos hmiss]
  · intro kind b rest hkind
    obtain ⟨a, i⟩ := b
    simp only [checkBindings]
    by_cases hmiss : resolveOutputName sourceNodeInfo a ∈ sourceOutputs
    · simp [hmiss, hkind]
    · simp [hmiss]
  · intro bindings
    induction bindings with
    | nil => simp [checkBindings]
    | cons b rest ih =>
      obtain ⟨a, i⟩ := b
      simp only [checkBindings]
      by_cases hmiss : resolveOutputName sourceNodeInfo a ∈ sourceOutputs
      · by_cases hin : i ∈ nodeInputs
        · simp [hmiss, hin, ih]
        · simp [hmiss, hin]
      · simp [hmiss]

theorem claim_C3_witness :
    resolveOutputName exDlA "faces" = "detection_out" ∧
    resolveOutputName exDlA "detection_out" = "detection_out" ∧
    checkBindings exDlA ["detection_out"] NodeKind.EXIT ["input0"]
      [("unknown", "r2")] = StatusCode.INVALID_MISSING_OUTPUT ∧
    checkBindings exDlA ["detection_out"] NodeKind.EXIT ["input0"]
        [("detection_out", "r1"), ("unknown", "r2")] =
      checkBindings exDlA ["detection_out"] NodeKind.EXIT ["input0"]
        [("detection_out", "r1")] ∧
    (checkBindings exDlA ["detection_out"] NodeKind.DL ["input0"]
        [("faces", "input0")] = StatusCode.OK ↔
      ∀ b ∈ [("faces", "input0")],
        List.contains ["detection_out"] (resolveOutputName exDlA b.1) ∧
        List.contains ["input0"] b.2) :=
  ⟨(claim_C3 exDlA ["detection_out"] ["input0"]).1 "faces" "detection_out"
     (by decide),
   (claim_C3 exDlA ["detection_out"] ["input0"]).2.1 "detection_out" (by decide),
   (claim_C3 exDlA ["detection_out"] ["input0"]).2.2.1 NodeKind.EXIT "unknown"
     "r2" [] (by decide),
   (claim_C3 exDlA ["detection_out"] ["input0"]).2.2.2.1 NodeKind.EXIT
     ("detection_out", "r1") [("unknown", "r2")] (by decide),
   (claim_C3 exDlA ["detection_out"] ["input0"]).2.2.2.2 [("faces", "input0")]⟩

/-! ## C1 — PipelineDefinition::create acquires no liveness guards and never
fails with MODEL_VERSION_NOT_LOADED_ANYMORE -/

/-- Version 1 of model "m" after retirement: state END, guard unobtainable. -/
def exInstEnd : ModelInstance := { exInstDet with state := .END }

/-- A manager whose only version of model "m" is retired (END): resolving it
fails with MODEL_VERSION_NOT_LOADED_ANYMORE and no liveness guard can be
acquired. -/
def exMgrEnd : ModelManager :=
  { models := [("m", { name := "m", modelVersions := [(1, exInstEnd)],
                       defaultVersion := 0 })] }

/-- The DL node a pinned to model version 1. -/
def exDlA1 : NodeInfo := { exDlA with modelVersion := some 1 }

/-- Counterexample to C1 as stated: model "m" version 1 referenced by DL node a
is no longer AVAILABLE (state END — a liveness guard cannot be acquired, the
spec-modelled resolution yields MODEL_VERSION_NOT_LOADED_ANYMORE), yet
PipelineDefinition::create returns OK: the code at model.hpp lines 223-271
builds the node set and connections without consulting the manager, acquires no
guards, and cannot fail with MODEL_VERSION_NOT_LOADED_ANYMORE. -/
theorem claim_C1_counterexample :
    getModelInstance exMgrEnd "m" 1 =
      .error StatusCode.MODEL_VERSION_NOT_LOADED_ANYMORE ∧
    (create "p" [exEntry, exDlA1, exExit] exConnsMain exMgrEnd).map Prod.snd =
      some StatusCode.OK ∧
    some StatusCode.OK ≠ some StatusCode.MODEL_VERSION_NOT_LOADED_ANYMORE := by
  refine ⟨by rfl, by decide, by decide⟩

/-- C1 (amended): per-request construction acquires no liveness guards and
never consults instance availability: whenever every connection references
existing node names and the definition has an Entry and an Exit node,
PipelineDefinition::create returns OK, and its result is identical for any two
managers — in particular for one in which a DL node's ModelInstance is no
longer AVAILABLE. -/
theorem claim_C1 (pipelineName : String) (nodeInfos : List NodeInfo)
    (connections : PipelineConnections) (manager manager' : ModelManager)
    (hconn : ∀ kv ∈ connections, kv.1 ∈ nodeInfos.map (fun ni => ni.nodeName) ∧
      ∀ dep ∈ kv.2, dep.1 ∈ nodeInfos.map (fun ni => ni.nodeName))
    (hentry : ∃ i ∈ nodeInfos, i.kind = NodeKind.ENTRY)
    (hexit : ∃ i ∈ nodeInfos, i.kind = NodeKind.EXIT) :
    (create pipelineName nodeInfos connections manager).map Prod.snd =
      some StatusCode.OK ∧
    create pipelineName nodeInfos connections manager =
      create pipelineName nodeInfos connections manager' := by
  refine ⟨?_, rfl⟩
  unfold create
  have hall : connections.all (fun kv =>
      (nodeInfos.map (fun ni => ni.nodeName)).contains kv.1 &&
      kv.2.all (fun dep =>
        (nodeInfos.map (fun ni => ni.nodeName)).contains dep.1)) = true := by
    refine List.all_eq_true.2 ?_
    intro kv hkv
    have h1 := (hconn kv hkv).1
    have h2 := (hconn kv hkv).2
    simp only [Bool.and_eq_true]
    refine ⟨by simpa using h1, ?_⟩
    refine List.all_eq_true.2 ?_
    intro dep hdep
    simpa using h2 dep hdep
  rw [if_pos hall]
  obtain ⟨ie, hie, hke⟩ := hentry
  obtain ⟨ix, hix, hkx⟩ := hexit
  have hne : nodeInfos.filter (fun i => i.kind == NodeKind.ENTRY) ≠ [] := by
    refine List.ne_nil_of_mem (a := ie) ?_
    exact List.mem_filter.2 ⟨hie, by simp [hke]⟩
  have hnx : nodeInfos.filter (fun i => i.kind == NodeKind.EXIT) ≠ [] := by
    refine List.ne_nil_of_mem (a := ix) ?_
    exact List.mem_filter.2 ⟨hix, by simp [hkx]⟩
  obtain ⟨e, he⟩ := Option.isSome_iff_exists.1 (List.getLast?_isSome.2 hne)
  obtain ⟨x, hx⟩ := Option.isSome_iff_exists.1 (List.getLast?_isSome.2 hnx)
  rw [he, hx]
  rfl

theorem claim_C1_witness :
    (∀ kv ∈ exConnsMain, kv.1 ∈ exNodes.map (fun ni => ni.nodeName) ∧
      ∀ dep ∈ kv.2, dep.1 ∈ exNodes.map (fun ni => ni.nodeName)) ∧
    (create "p" exNodes exConnsMain exMgrEnd).map Prod.snd =
      some StatusCode.OK ∧
    create "p" exNodes exConnsMain exMgrEnd =
      create "p" exNodes exConnsMain exMgr :=
  ⟨by decide,
   (claim_C1 "p" exNodes exConnsMain exMgrEnd exMgr (by decide)
     ⟨exEntry, by decide, by decide⟩ ⟨exExit, by decide, by decide⟩).1,
   (claim_C1 "p" exNodes exConnsMain exMgrEnd exMgr (by decide)
     ⟨exEntry, by decide, by decide⟩ ⟨exExit, by decide, by decide⟩).2⟩

/-! ## C7 — the actual order of the validation checks -/

/-- With pairwise-distinct node names, the per-node duplicate count is at
most one. -/
lemma countP_name_le_one {nodeInfos : List NodeInfo}
    (hnd : (nodeInfos.map (fun ni => ni.nodeName)).Nodup) (x : String) :
    nodeInfos.countP (fun ni => ni.nodeName == x) ≤ 1 := by
  have h1 : nodeInfos.countP (fun ni => ni.nodeName == x) =
      (nodeInfos.map (fun ni => ni.nodeName)).count x := by
    rw [List.count_eq_countP, List.countP_map]; rfl
  rw [h1]
  exact List.nodup_iff_count_le_one.1 hnd x

/-- The validateNodes loop returns the first failing per-node result: nodes
before it pass all their checks, the failing node passes the duplicate check,
and its validateNode error is returned — even when an Entry or Exit node is
missing from the whole list. -/
lemma validateNodesGo_first_error (manager : ModelManager)
    (allNodeInfos : List NodeInfo) (connections : PipelineConnections) :
    ∀ (pre : List NodeInfo) (node : NodeInfo) (post : List NodeInfo)
      (eF xF : Bool) (e : StatusCode),
      (∀ n ∈ pre, allNodeInfos.countP
        (fun ni => ni.nodeName == n.nodeName) ≤ 1) →
      (∀ n ∈ pre, validateNode manager allNodeInfos connections n =
        StatusCode.OK) →
      pre.countP (fun n => n.kind == NodeKind.ENTRY) + eF.toNat ≤ 1 →
      pre.countP (fun n => n.kind == NodeKind.EXIT) + xF.toNat ≤ 1 →
      allNodeInfos.countP (fun ni => ni.nodeName == node.nodeName) ≤ 1 →
      validateNode manager allNodeInfos connections node = e →
      e ≠ StatusCode.OK →
      validateNodesGo manager allNodeInfos connections (pre ++ node :: post)
        eF xF = e := by
  intro pre
  induction pre with
  | nil =>
    intro node post eF xF e _ _ _ _ hdup hval hne
    simp only [List.nil_append, validateNodesGo]
    rw [if_neg (by omega), hval, if_pos hne]
  | cons n pre ih =>
    intro node post eF xF e hdups hoks hcE hcX hdup hval hne
    simp only [List.cons_append, validateNodesGo]
    rw [if_neg (by have := hdups n (List.mem_cons_self n pre); omega),
      hoks n (List.mem_cons_self n pre)]
    rw [if_neg (by decide)]
    have hdups' : ∀ m ∈ pre, allNodeInfos.countP
        (fun ni => ni.nodeName == m.nodeName) ≤ 1 :=
      fun m hm => hdups m (List.mem_cons_of_mem n hm)
    have hoks' : ∀ m ∈ pre, validateNode manager allNodeInfos connections m =
        StatusCode.OK :=
      fun m hm => hoks m (List.mem_cons_of_mem n hm)
    by_cases hkE : n.kind = NodeKind.ENTRY
    · have hcons : (n :: pre).countP (fun m => m.kind == NodeKind.ENTRY) =
          pre.countP (fun m => m.kind == NodeKind.ENTRY) + 1 :=
        List.countP_cons_of_pos (fun m => m.kind == NodeKind.ENTRY) pre
          (by simp [hkE])
      have hcE0 : pre.countP (fun m => m.kind == NodeKind.ENTRY) = 0 := by
        omega
      have heF : eF = false := by
        cases eF with
        | false => rfl
        | true => rw [hcons] at hcE; simp [Bool.toNat] at hcE
      have hkX : n.kind ≠ NodeKind.EXIT := by rw [hkE]; decide
      have hconsX : (n :: pre).countP (fun m => m.kind == NodeKind.EXIT) =
          pre.countP (fun m => m.kind == NodeKind.EXIT) :=
        List.countP_cons_of_neg (fun m => m.kind == NodeKind.EXIT) pre
          (by simp [hkX])
      have hcX' : pre.countP (fun m => m.kind == NodeKind.EXIT) + xF.toNat ≤ 1 := by
        omega
      rw [if_neg (by simp [heF]), if_neg (by simp [hkX])]
      have h1 : (eF || n.kind == NodeKind.ENTRY) = true := by simp [hkE]
      have h2 : (xF || n.kind == NodeKind.EXIT) = xF := by simp [hkX]
      rw [h1, h2]
      exact ih node post true xF e hdups' hoks'
        (by rw [hcE0]; decide) hcX' hdup hval hne
    · by_cases hkX : n.kind = NodeKind.EXIT
      · have hcons : (n :: pre).countP (fun m => m.kind == NodeKind.EXIT) =
            pre.countP (fun m => m.kind == NodeKind.EXIT) + 1 :=
          List.countP_cons_of_pos (fun m => m.kind == NodeKind.EXIT) pre
            (by simp [hkX])
        have hcX0 : pre.countP (fun m => m.kind == NodeKind.EXIT) = 0 := by
          omega
        have hxF : xF = false := by
          cases xF with
          | false => rfl
          | true => rw [hcons] at hcX; simp [Bool.toNat] at hcX
        have hconsE : (n :: pre).countP (fun m => m.kind == NodeKind.ENTRY) =
            pre.countP (fun m => m.kind == NodeKind.ENTRY) :=
          List.countP_cons_of_neg (fun m => m.kind == NodeKind.ENTRY) pre
            (by simp [hkE])
        have hcE' : pre.countP (fun m => m.kind == NodeKind.ENTRY) + eF.toNat ≤ 1 := by
          omega
        rw [if_neg (by simp [hkE]), if_neg (by simp [hxF])]
        have h1 : (eF || n.kind == NodeKind.ENTRY) = eF := by simp [hkE]
        have h2 : (xF || n.kind == NodeKind.EXIT) = true := by simp [hkX]
        rw [h1, h2]
        exact ih node post eF true e hdups' hoks' hcE'
          (by rw [hcX0]; decide) hdup hval hne
      · have hconsE : (n :: pre).countP (fun m => m.kind == NodeKind.ENTRY) =
            pre.countP (fun m => m.kind == NodeKind.ENTRY) :=
          List.countP_cons_of_neg (fun m => m.kind == NodeKind.ENTRY) pre
            (by simp [hkE])
        have hconsX : (n :: pre).countP (fun m => m.kind == NodeKind.EXIT) =
            pre.countP (fun m => m.kind == NodeKind.EXIT) :=
          List.countP_cons_of_neg (fun m => m.kind == NodeKind.EXIT) pre
            (by simp [hkX])
        rw [if_neg (by simp [hkE]), if_neg (by simp [hkX])]
        have h1 : (eF || n.kind == NodeKind.ENTRY) = eF := by simp [hkE]
        have h2 : (xF || n.kind == NodeKind.EXIT) = xF := by simp [hkX]
        rw [h1, h2]
        exact ih node post eF xF e hdups' hoks' (by omega) (by omega) hdup
          hval hne

/-- When every node passes its duplicate and validateNode checks and no
multiple-Entry/Exit fires, the loop's verdict is decided only at the end:
missing Entry (or Exit) is reported only after all nodes were processed. -/
lemma validateNodesGo_all_ok (manager : ModelManager)
    (allNodeInfos : List NodeInfo) (connections : PipelineConnections) :
    ∀ (l : List NodeInfo) (eF xF : Bool),
      (∀ n ∈ l, allNodeInfos.countP
        (fun ni => ni.nodeName == n.nodeName) ≤ 1) →
      (∀ n ∈ l, validateNode manager allNodeInfos connections n =
        StatusCode.OK) →
      l.countP (fun n => n.kind == NodeKind.ENTRY) + eF.toNat ≤ 1 →
      l.countP (fun n => n.kind == NodeKind.EXIT) + xF.toNat ≤ 1 →
      validateNodesGo manager allNodeInfos connections l eF xF =
        (if eF || l.any (fun n => n.kind == NodeKind.ENTRY) then
          (if xF || l.any (fun n => n.kind == NodeKind.EXIT) then StatusCode.OK
           else StatusCode.PIPELINE_MISSING_ENTRY_OR_EXIT)
         else StatusCode.PIPELINE_MISSING_ENTRY_OR_EXIT) := by
  intro l
  induction l with
  | nil =>
    intro eF xF _ _ _ _
    cases eF <;> cases xF <;> simp [validateNodesGo]
  | cons n rest ih =>
    intro eF xF hdups hoks hcE hcX
    simp only [validateNodesGo]
    rw [if_neg (by have := hdups n (List.mem_cons_self n rest); omega),
      hoks n (List.mem_cons_self n rest)]
    rw [if_neg (by decide)]
    have hdups' : ∀ m ∈ rest, allNodeInfos.countP
        (fun ni => ni.nodeName == m.nodeName) ≤ 1 :=
      fun m hm => hdups m (List.mem_cons_of_mem n hm)
    have hoks' : ∀ m ∈ rest, validateNode manager allNodeInfos connections m =
        StatusCode.OK :=
      fun m hm => hoks m (List.mem_cons_of_mem n hm)
    by_cases hkE : n.kind = NodeKind.ENTRY
    · have hcons : (n :: rest).countP (fun m => m.kind == NodeKind.ENTRY) =
          rest.countP (fun m => m.kind == NodeKind.ENTRY) + 1 :=
        List.countP_cons_of_pos (fun m => m.kind == NodeKind.ENTRY) rest
          (by simp [hkE])
      have hcE0 : rest.countP (fun m => m.kind == NodeKind.ENTRY) = 0 := by
        omega
      have heF : eF = false := by
        cases eF with
        | false => rfl
        | true => rw [hcons] at hcE; simp [Bool.toNat] at hcE
      have hkX : n.kind ≠ NodeKind.EXIT := by rw [hkE]; decide
      have hconsX : (n :: rest).countP (fun m => m.kind == NodeKind.EXIT) =
          rest.countP (fun m => m.kind == NodeKind.EXIT) :=
        List.countP_cons_of_neg (fun m => m.kind == NodeKind.EXIT) rest
          (by simp [hkX])
      rw [if_neg (by simp [heF]), if_neg (by simp [hkX])]
      have h1 : (eF || n.kind == NodeKind.ENTRY) = true := by simp [hkE]
      have h2 : (xF || n.kind == NodeKind.EXIT) = xF := by simp [hkX]
      rw [h1, h2]
      rw [ih true xF hdups' hoks' (by rw [hcE0]; decide) (by omega)]
      simp [hkE, hkX, heF]
    · by_cases hkX : n.kind = NodeKind.EXIT
      · have hcons : (n :: rest).countP (fun m => m.kind == NodeKind.EXIT) =
            rest.countP (fun m => m.kind == NodeKind.EXIT) + 1 :=
          List.countP_cons_of_pos (fun m => m.kind == NodeKind.EXIT) rest
            (by simp [hkX])
        have hcX0 : rest.countP (fun m => m.kind == NodeKind.EXIT) = 0 := by
          omega
        have hxF : xF = false := by
          cases xF with
          | false => rfl
          | true => rw [hcons] at hcX; simp [Bool.toNat] at hcX
        have hconsE : (n :: rest).countP (fun m => m.kind == NodeKind.ENTRY) =
            rest.countP (fun m => m.kind == NodeKind.ENTRY) :=
          List.countP_cons_of_neg (fun m => m.kind == NodeKind.ENTRY) rest
            (by simp [hkE])
        rw [if_neg (by simp [hkE]), if_neg (by simp [hxF])]
        have h1 : (eF || n.kind == NodeKind.ENTRY) = eF := by simp [hkE]
        have h2 : (xF || n.kind == NodeKind.EXIT) = true := by simp [hkX]
        rw [h1, h2]
        rw [ih eF true hdups' hoks' (by omega) (by rw [hcX0]; decide)]
        simp [hkE, hkX, hxF]
      · have hconsE : (n :: rest).countP (fun m => m.kind == NodeKind.ENTRY) =
            rest.countP (fun m => m.kind == NodeKind.ENTRY) :=
          List.countP_cons_of_neg (fun m => m.kind == NodeKind.ENTRY) rest
            (by simp [hkE])
        have hconsX : (n :: rest).countP (fun m => m.kind == NodeKind.EXIT) =
            rest.countP (fun m => m.kind == NodeKind.EXIT) :=
          List.countP_cons_of_neg (fun m => m.kind == NodeKind.EXIT) rest
            (by simp [hkX])
        rw [if_neg (by simp [hkE]), if_neg (by simp [hkX])]
        have h1 : (eF || n.kind == NodeKind.ENTRY) = eF := by simp [hkE]
        have h2 : (xF || n.kind == NodeKind.EXIT) = xF := by simp [hkX]
        rw [h1, h2]
        rw [ih eF xF hdups' hoks' (by omega) (by omega)]
        simp [hkE, hkX]

/-- Exit node named sink, used by the C7 counterexample. -/
def exSink : NodeInfo :=
  { kind := .EXIT, nodeName := "sink", modelName := "",
    modelVersion := none, outputNameAliases := [] }

/-- Counterexample to C7 as stated: a definition with no Entry node at all and
an invalid edge (source nowhere does not exist) reports the edge error
MODEL_NAME_MISSING, not the missing Entry/Exit — exactly-one-Entry/Exit is not
checked before per-node and edge validation. -/
theorem claim_C7_counterexample :
    (∀ n ∈ [exSink], n.kind ≠ NodeKind.ENTRY) ∧
    validateNodes exMgr [exSink]
      [("sink", [("nowhere", [("o", "i")])])] = StatusCode.MODEL_NAME_MISSING ∧
    StatusCode.MODEL_NAME_MISSING ≠ StatusCode.PIPELINE_MISSING_ENTRY_OR_EXIT := by
  refine ⟨by decide, by decide, by decide⟩

/-- C7 (amended): validateNodes interleaves its checks per node in list order —
for each node: the name-uniqueness check, then node validation together with
the validation of that node's incoming edges, then multiple-Entry/Exit
detection — and the missing-Entry/missing-Exit check runs only after every node
has passed; acyclicity is checked last by createDefinition.  Hence the first
node whose validateNode fails decides the returned status (first conjunct),
even when an Entry or Exit is missing, and a missing Entry/Exit is reported
only when every per-node check passed (second conjunct); a definition that
fails validateNodes never reaches validateForCycles (third conjunct). -/
theorem claim_C7 (manager : ModelManager) (connections : PipelineConnections) :
    (∀ (pre : List NodeInfo) (node : NodeInfo) (post : List NodeInfo)
        (e : StatusCode),
      (((pre ++ node :: post).map (fun ni => ni.nodeName)).Nodup) →
      (∀ n ∈ pre, validateNode manager (pre ++ node :: post) connections n =
        StatusCode.OK) →
      pre.countP (fun n => n.kind == NodeKind.ENTRY) ≤ 1 →
      pre.countP (fun n => n.kind == NodeKind.EXIT) ≤ 1 →
      validateNode manager (pre ++ node :: post) connections node = e →
      e ≠ StatusCode.OK →
      validateNodes manager (pre ++ node :: post) connections = e) ∧
    (∀ nodeInfos : List NodeInfo,
      ((nodeInfos.map (fun ni => ni.nodeName)).Nodup) →
      (∀ n ∈ nodeInfos, validateNode manager nodeInfos connections n =
        StatusCode.OK) →
      (∀ n ∈ nodeInfos, n.kind ≠ NodeKind.ENTRY) →
      nodeInfos.countP (fun n => n.kind == NodeKind.EXIT) ≤ 1 →
      validateNodes manager nodeInfos connections =
        StatusCode.PIPELINE_MISSING_ENTRY_OR_EXIT) ∧
    (∀ (existingDefinitions : List String) (pipelineName : String)
        (nodeInfos : List NodeInfo),
      ¬ existingDefinitions.contains pipelineName →
      validateNodes manager nodeInfos connections ≠ StatusCode.OK →
      createDefinition existingDefinitions pipelineName nodeInfos connections
        manager = some (validateNodes manager nodeInfos connections)) := by
  refine ⟨?_, ?_, ?_⟩
  · intro pre node post e hnd hoks hcE hcX hval hne
    unfold validateNodes
    exact validateNodesGo_first_error manager (pre ++ node :: post) connections
      pre node post false false e
      (fun n _ => countP_name_le_one hnd n.nodeName)
      hoks (by simp [Bool.toNat]; omega) (by simp [Bool.toNat]; omega)
      (countP_name_le_one hnd node.nodeName) hval hne
  · intro nodeInfos hnd hoks hnoentry hcX
    unfold validateNodes
    rw [validateNodesGo_all_ok manager nodeInfos connections nodeInfos
      false false (fun n _ => countP_name_le_one hnd n.nodeName) hoks
      (by
        have : nodeInfos.countP (fun n => n.kind == NodeKind.ENTRY) = 0 := by
          refine List.countP_eq_zero.2 ?_
          intro n hn
          simpa using hnoentry n hn
        simp [this, Bool.toNat])
      (by simp [Bool.toNat]; omega)]
    have : nodeInfos.any (fun n => n.kind == NodeKind.ENTRY) = false := by
      refine List.any_eq_false.2 ?_
      intro n hn
      simpa using hnoentry n hn
    rw [this]
    simp
  · intro existingDefinitions pipelineName nodeInfos hnew hbad
    unfold createDefinition
    rw [if_neg (by simpa using hnew), if_pos hbad]

theorem claim_C7_witness :
    validateNodes exMgrAuto [exEntry, exDlA, exExit] exConnsMain =
      StatusCode.FORBIDDEN_MODEL_DYNAMIC_PARAMETER ∧
    validateNodes exMgr [exSink] [] =
      StatusCode.PIPELINE_MISSING_ENTRY_OR_EXIT ∧
    createDefinition [] "q" [exSink] [] exMgr =
      some (validateNodes exMgr [exSink] []) :=
  ⟨(claim_C7 exMgrAuto exConnsMain).1 [exEntry] exDlA [exExit]
     StatusCode.FORBIDDEN_MODEL_DYNAMIC_PARAMETER
     (by decide) (by decide) (by decide) (by decide) (by decide) (by decide),
   (claim_C7 exMgr []).2.1 [exSink] (by decide) (by decide) (by decide)
     (by decide),
   (claim_C7 exMgr []).2.2 [] "q" [exSink] (by decide) (by decide)⟩

/-! ## C8 — the default-version rule -/

/-- Folding max over a list starting at a is at least a. -/
lemma le_foldl_max_self (l : List Nat) : ∀ a : Nat, a ≤ l.foldl max a := by
  induction l with
  | nil => intro a; exact Nat.le_refl a
  | cons x xs ih =>
    intro a
    exact Nat.le_trans (Nat.le_max_left a x) (ih (max a x))

/-- Folding max bounds every list element. -/
lemma mem_le_foldl_max (l : List Nat) : ∀ (a x : Nat), x ∈ l → x ≤ l.foldl max a := by
  induction l with
  | nil => intro a x hx; simp at hx
  | cons y ys ih =>
    intro a x hx
    rcases List.mem_cons.1 hx with hx | hx
    · subst hx
      exact Nat.le_trans (Nat.le_max_right a x) (le_foldl_max_self ys (max a x))
    · exact ih (max a y) x hx

/-- The fold's result is the start value or a list element. -/
lemma foldl_max_mem (l : List Nat) : ∀ a : Nat, l.foldl max a = a ∨ l.foldl max a ∈ l := by
  induction l with
  | nil => intro a; exact Or.inl rfl
  | cons x xs ih =>
    intro a
    rcases ih (max a x) with h | h
    · by_cases hax : a ≤ x
      · refine Or.inr ?_
        rw [List.foldl_cons, h, Nat.max_eq_right hax]
        exact List.mem_cons_self x xs
      · refine Or.inl ?_
        rw [List.foldl_cons, h, Nat.max_eq_left (Nat.le_of_not_le hax)]
    · exact Or.inr (List.mem_cons_of_mem x h)

/-- After updateDefaultVersion the default is the numerically highest AVAILABLE
version, or 0 when no version is AVAILABLE. -/
lemma updateDefaultVersion_spec (m : Model) :
    (availableVersions (Model.updateDefaultVersion m).modelVersions = [] →
      (Model.updateDefaultVersion m).defaultVersion = 0) ∧
    (availableVersions (Model.updateDefaultVersion m).modelVersions ≠ [] →
      (Model.updateDefaultVersion m).defaultVersion ∈
        availableVersions (Model.updateDefaultVersion m).modelVersions ∧
      ∀ v ∈ availableVersions (Model.updateDefaultVersion m).modelVersions,
        v ≤ (Model.updateDefaultVersion m).defaultVersion) := by
  have hsame : (Model.updateDefaultVersion m).modelVersions = m.modelVersions := rfl
  have hdef : (Model.updateDefaultVersion m).defaultVersion =
      (availableVersions m.modelVersions).foldl max 0 := rfl
  rw [hsame, hdef]
  constructor
  · intro hempty
    rw [hempty]
    rfl
  · intro hne
    constructor
    · rcases foldl_max_mem (availableVersions m.modelVersions) 0 with h | h
      · cases hl : availableVersions m.modelVersions with
        | nil => exact absurd hl hne
        | cons v vs =>
          have hv : v ≤ (availableVersions m.modelVersions).foldl max 0 :=
            mem_le_foldl_max _ 0 v (by rw [hl]; exact List.mem_cons_self v vs)
          rw [h] at hv
          have hv0 : v = 0 := Nat.le_antisymm hv (Nat.zero_le v)
          rw [hl] at h
          rw [h, ← hv0]
          exact List.mem_cons_self v vs
      · exact h
    · intro v hv
      exact mem_le_foldl_max _ 0 v hv

/-- C8: after each of the three mutations (spec-modelled addVersions,
retireVersions, reloadVersions) the recomputed default version is the
numerically highest version whose instance is AVAILABLE — it belongs to the
AVAILABLE versions and dominates them — and when no version is AVAILABLE the
default is 0; moreover, for any model with default 0 and positive version keys
(version numbers are positive integers), a manager lookup without an explicit
version (version argument 0) returns MODEL_VERSION_MISSING. -/
theorem claim_C8 (m : Model) (versions : List Nat) (config : ModelConfig)
    (loadOk : Nat → Bool) (loadedNames : Nat → List String × List String)
    (reloadOk : Nat → Bool) :
    ((availableVersions (m.addVersions versions config loadOk loadedNames).modelVersions = [] →
        (m.addVersions versions config loadOk loadedNames).defaultVersion = 0) ∧
      (availableVersions (m.addVersions versions config loadOk loadedNames).modelVersions ≠ [] →
        (m.addVersions versions config loadOk loadedNames).defaultVersion ∈
          availableVersions (m.addVersions versions config loadOk loadedNames).modelVersions ∧
        ∀ v ∈ availableVersions (m.addVersions versions config loadOk loadedNames).modelVersions,
          v ≤ (m.addVersions versions config loadOk loadedNames).defaultVersion)) ∧
    ((availableVersions (m.retireVersions versions).modelVersions = [] →
        (m.retireVersions versions).defaultVersion = 0) ∧
      (availableVersions (m.retireVersions versions).modelVersions ≠ [] →
        (m.retireVersions versions).defaultVersion ∈
          availableVersions (m.retireVersions versions).modelVersions ∧
        ∀ v ∈ availableVersions (m.retireVersions versions).modelVersions,
          v ≤ (m.retireVersions versions).defaultVersion)) ∧
    ((availableVersions (m.reloadVersions versions config reloadOk).modelVersions = [] →
        (m.reloadVersions versions config reloadOk).defaultVersion = 0) ∧
      (availableVersions (m.reloadVersions versions config reloadOk).modelVersions ≠ [] →
        (m.reloadVersions versions config reloadOk).defaultVersion ∈
          availableVersions (m.reloadVersions versions config reloadOk).modelVersions ∧
        ∀ v ∈ availableVersions (m.reloadVersions versions config reloadOk).modelVersions,
          v ≤ (m.reloadVersions versions config reloadOk).defaultVersion)) ∧
    (∀ mm : Model, mm.defaultVersion = 0 →
      (∀ kv ∈ mm.modelVersions, 0 < kv.1) →
      getModelInstance { models := [(mm.name, mm)] } mm.name 0 =
        .error StatusCode.MODEL_VERSION_MISSING) := by
  refine ⟨updateDefaultVersion_spec _, updateDefaultVersion_spec _,
    updateDefaultVersion_spec _, ?_⟩
  intro mm hdef hpos
  unfold getModelInstance
  have hfind : ([(mm.name, mm)].find? (fun kv => kv.1 == mm.name)) =
      some (mm.name, mm) := by
    simp [List.find?]
  rw [hfind]
  dsimp only
  have hv : (if (0 : Nat) == 0 then mm.defaultVersion else 0) = 0 := by
    simp [hdef]
  rw [hv]
  have hnone : mm.modelVersions.find? (fun kv => kv.1 == (0 : Nat)) = none := by
    refine List.find?_eq_none.2 ?_
    intro kv hkv
    have := hpos kv hkv
    simp
    omega
  rw [hnone]

/-- The Model value served by exMgr. -/
def exModelM : Model :=
  { name := "m", modelVersions := [(1, exInstDet)], defaultVersion := 1 }

/-- Witness for C8: retiring the only AVAILABLE version of model "m" drives the
default to 0 and the default lookup to MODEL_VERSION_MISSING; adding version 2
makes it the new default. -/
theorem claim_C8_witness :
    availableVersions (exModelM.retireVersions [1]).modelVersions = [] ∧
    (exModelM.retireVersions [1]).defaultVersion = 0 ∧
    getModelInstance { models := [("m", exModelM.retireVersions [1])] } "m" 0 =
      .error StatusCode.MODEL_VERSION_MISSING ∧
    (exModelM.addVersions [2] exCfgFixed (fun _ => true)
        (fun _ => (["i"], ["o"]))).defaultVersion ∈
      availableVersions (exModelM.addVersions [2] exCfgFixed (fun _ => true)
        (fun _ => (["i"], ["o"]))).modelVersions := by
  refine ⟨by decide, ?_, ?_, ?_⟩
  · exact (claim_C8 exModelM [1] exCfgFixed (fun _ => true)
      (fun _ => (["i"], ["o"])) (fun _ => true)).2.1.1 (by decide)
  · exact (claim_C8 exModelM [1] exCfgFixed (fun _ => true)
      (fun _ => (["i"], ["o"])) (fun _ => true)).2.2.2
      (exModelM.retireVersions [1]) (by decide) (by decide)
  · exact ((claim_C8 exModelM [2] exCfgFixed (fun _ => true)
      (fun _ => (["i"], ["o"])) (fun _ => true)).1.2 (by decide)).1

/-! ## C9 — validation is not monotone in the set of AVAILABLE instances -/

/-- Version 2 of model "m": AVAILABLE but with a different output name. -/
def exInst2 : ModelInstance :=
  { name := "m", version := 2, state := .AVAILABLE, config := exCfgFixed,
    inputsInfo := ["input0"], outputsInfo := ["other_out"] }

/-- Model "m" with AVAILABLE versions 1 and 2; the default is 2. -/
def exModelM2 : Model :=
  { name := "m"
    modelVersions := [(1, exInstDet), (2, exInst2)]
    defaultVersion := 2 }

/-- A manager whose AVAILABLE instances strictly extend exMgr's: versions 1 and
2 of model "m" are AVAILABLE, so the default version becomes 2. -/
def exMgr2 : ModelManager := { models := [("m", exModelM2)] }

/-- Counterexample to C9 as stated: the pipeline validates OK against exMgr,
exMgr2's AVAILABLE instances are a superset of exMgr's, yet the same definition
fails against exMgr2 with INVALID_MISSING_OUTPUT — the newly AVAILABLE version
2 became the default resolved for the version-0 source lookup and lacks the
bound output. -/
theorem claim_C9_counterexample :
    createDefinition [] "p" exNodes exConnsMain exMgr = some StatusCode.OK ∧
    (∀ x ∈ availableInstances exMgr, x ∈ availableInstances exMgr2) ∧
    createDefinition [] "p" exNodes exConnsMain exMgr2 =
      some StatusCode.INVALID_MISSING_OUTPUT ∧
    some StatusCode.INVALID_MISSING_OUTPUT ≠ some StatusCode.OK := by
  refine ⟨by decide, by decide, by decide, by decide⟩

/-- A single edge check only consults the manager through the version-0 lookup
of its source node's model. -/
lemma validateConnection_congr (managerA managerB : ModelManager)
    (nodeInfos : List NodeInfo) (node : NodeInfo) (nodeInputs : List String)
    (connection : String × Aliases)
    (h : ∀ ni ∈ nodeInfos, getModelInstance managerB ni.modelName 0 =
      getModelInstance managerA ni.modelName 0) :
    validateConnection managerB nodeInfos node nodeInputs connection =
    validateConnection managerA nodeInfos node nodeInputs connection := by
  unfold validateConnection
  cases hf : nodeInfos.find? (fun nodeInfo => nodeInfo.nodeName == connection.1) with
  | none => rfl
  | some sourceNodeInfo =>
    dsimp only
    rw [h sourceNodeInfo (List.mem_of_find?_eq_some hf)]

/-- Edge-loop version of `validateConnection_congr`. -/
lemma validateConnections_congr (managerA managerB : ModelManager)
    (nodeInfos : List NodeInfo) (node : NodeInfo) (nodeInputs : List String)
    (h : ∀ ni ∈ nodeInfos, getModelInstance managerB ni.modelName 0 =
      getModelInstance managerA ni.modelName 0) :
    ∀ l : List (String × Aliases),
      validateConnections managerB nodeInfos node nodeInputs l =
      validateConnections managerA nodeInfos node nodeInputs l := by
  intro l
  induction l with
  | nil => rfl
  | cons c rest ih =>
    simp only [validateConnections,
      validateConnection_congr managerA managerB nodeInfos node nodeInputs c h,
      ih]

/-- validateNode only consults the manager through the node's own lookup and
the version-0 lookups of edge sources. -/
lemma validateNode_congr (managerA managerB : ModelManager)
    (nodeInfos : List NodeInfo) (connections : PipelineConnections)
    (node : NodeInfo)
    (hown : getModelInstance managerB node.modelName (node.modelVersion.getD 0) =
      getModelInstance managerA node.modelName (node.modelVersion.getD 0))
    (h : ∀ ni ∈ nodeInfos, getModelInstance managerB ni.modelName 0 =
      getModelInstance managerA ni.modelName 0) :
    validateNode managerB nodeInfos connections node =
    validateNode managerA nodeInfos connections node := by
  unfold validateNode
  by_cases hk : node.kind = NodeKind.DL
  · rw [if_pos hk, if_pos hk, hown]
    cases hres : getModelInstance managerA node.modelName (node.modelVersion.getD 0) with
    | error e => rfl
    | ok inst =>
      dsimp only
      by_cases hb : inst.config.batchingMode = Mode.AUTO
      · rw [if_pos hb, if_pos hb]
      · rw [if_neg hb, if_neg hb]
        by_cases hs : inst.config.shapes.any (fun s => s.2.shapeMode == Mode.AUTO)
        · rw [if_pos hs, if_pos hs]
        · rw [if_neg hs, if_neg hs]
          exact validateConnections_congr managerA managerB nodeInfos node
            inst.inputsInfo h (connLookup connections node.nodeName)
  · rw [if_neg hk, if_neg hk]
    exact validateConnections_congr managerA managerB nodeInfos node [] h
      (connLookup connections node.nodeName)

/-- Loop version of `validateNode_congr`. -/
lemma validateNodesGo_congr (managerA managerB : ModelManager)
    (allNodeInfos : List NodeInfo) (connections : PipelineConnections)
    (hA : ∀ ni ∈ allNodeInfos,
      getModelInstance managerB ni.modelName (ni.modelVersion.getD 0) =
        getModelInstance managerA ni.modelName (ni.modelVersion.getD 0))
    (hB : ∀ ni ∈ allNodeInfos, getModelInstance managerB ni.modelName 0 =
      getModelInstance managerA ni.modelName 0) :
    ∀ (l : List NodeInfo) (eF xF : Bool),
      (∀ n ∈ l, n ∈ allNodeInfos) →
      validateNodesGo managerB allNodeInfos connections l eF xF =
      validateNodesGo managerA allNodeInfos connections l eF xF := by
  intro l
  induction l with
  | nil => intro eF xF _; rfl
  | cons n rest ih =>
    intro eF xF hsub
    have hn : n ∈ allNodeInfos := hsub n (List.mem_cons_self n rest)
    simp only [validateNodesGo,
      validateNode_congr managerA managerB allNodeInfos connections n
        (hA n hn) hB,
      ih (eF || n.kind == NodeKind.ENTRY) (xF || n.kind == NodeKind.EXIT)
        (fun m hm => hsub m (List.mem_cons_of_mem n hm))]

/-- C9 (amended): validation (validateNodes, and createDefinition as a whole)
depends on the manager only through the model resolutions the pipeline makes —
each node's (modelName, modelVersion-or-0) lookup and each source's version-0
lookup.  A manager change that leaves these resolutions unchanged (for
instance, adding AVAILABLE instances of models the pipeline does not reference)
preserves the validation outcome; a plain AVAILABLE-superset does not suffice,
because added versions can change the default resolved by the version-0
lookups (see the counterexample). -/
theorem claim_C9 (existingDefinitions : List String) (pipelineName : String)
    (nodeInfos : List NodeInfo) (connections : PipelineConnections)
    (managerA managerB : ModelManager)
    (hA : ∀ ni ∈ nodeInfos,
      getModelInstance managerB ni.modelName (ni.modelVersion.getD 0) =
        getModelInstance managerA ni.modelName (ni.modelVersion.getD 0))
    (hB : ∀ ni ∈ nodeInfos, getModelInstance managerB ni.modelName 0 =
      getModelInstance managerA ni.modelName 0) :
    validateNodes managerB nodeInfos connections =
      validateNodes managerA nodeInfos connections ∧
    createDefinition existingDefinitions pipelineName nodeInfos connections
        managerB =
      createDefinition existingDefinitions pipelineName nodeInfos connections
        managerA := by
  have hvn : validateNodes managerB nodeInfos connections =
      validateNodes managerA nodeInfos connections := by
    unfold validateNodes
    exact validateNodesGo_congr managerA managerB nodeInfos connections hA hB
      nodeInfos false false (fun n hn => hn)
  refine ⟨hvn, ?_⟩
  unfold createDefinition
  rw [hvn]

/-- An AVAILABLE instance of a model the pipeline never references. -/
def exInstUnrelated : ModelInstance :=
  { name := "unrelated"
    version := 1
    state := .AVAILABLE
    config := exCfgFixed
    inputsInfo := ["z"]
    outputsInfo := ["w"] }

/-- The unreferenced model wrapping exInstUnrelated. -/
def exModelUnrelated : Model :=
  { name := "unrelated"
    modelVersions := [(1, exInstUnrelated)]
    defaultVersion := 1 }

/-- A manager extending exMgr with an AVAILABLE model the pipeline never
references. -/
def exMgrPlus : ModelManager :=
  { models := [("m", exModelM), ("unrelated", exModelUnrelated)] }

theorem claim_C9_witness :
    (∀ x ∈ availableInstances exMgr, x ∈ availableInstances exMgrPlus) ∧
    validateNodes exMgrPlus exNodes exConnsMain =
      validateNodes exMgr exNodes exConnsMain ∧
    createDefinition [] "p" exNodes exConnsMain exMgrPlus =
      createDefinition [] "p" exNodes exConnsMain exMgr :=
  ⟨by decide,
   (claim_C9 [] "p" exNodes exConnsMain exMgr exMgrPlus (by decide)
     (by decide)).1,
   (claim_C9 [] "p" exNodes exConnsMain exMgr exMgrPlus (by decide)
     (by decide)).2⟩

/-! ## C2 — what validateForCycles actually decides -/

/-- Dataflow edge of the pipeline graph: d → c when d appears among the
dependencies of c (`connections[c]` contains d), i.e. d's outputs feed c. -/
def Edge (connections : PipelineConnections) (d c : String) : Prop :=
  d ∈ predNames connections c

/-- A node lies on an Entry→Exit path: it is reachable from the Entry node and
the Exit node is reachable from it (the notion quantified by the claim). -/
def liesOnEntryExitPath (connections : PipelineConnections)
    (entryName exitName u : String) : Prop :=
  Relation.ReflTransGen (Edge connections) entryName u ∧
  Relation.ReflTransGen (Edge connections) u exitName

/-- Every edge source is a declared dependency name. -/
lemma edge_source_mem (connections : PipelineConnections)
    (nodeNames : List String)
    (hwf : ∀ kv ∈ connections, ∀ dep ∈ kv.2, dep.1 ∈ nodeNames) :
    ∀ d c, Edge connections d c → d ∈ nodeNames := by
  intro d c h
  unfold Edge predNames connLookup at h
  cases hf : connections.find? (fun kv => kv.1 == c) with
  | none => rw [hf] at h; simp at h
  | some kv =>
    rw [hf] at h
    obtain ⟨x, hx, hxd⟩ := List.mem_map.1 h
    have := hwf kv (List.mem_of_find?_eq_some hf) x hx
    rwa [hxd] at this

/-- A chain starting at a reaches each of its later elements. -/
lemma chain'_reflTransGen {R : String → String → Prop} :
    ∀ (l : List String) (a b : String), List.Chain' R (a :: l) → b ∈ l →
      Relation.ReflTransGen R a b := by
  intro l
  induction l with
  | nil => intro a b _ hb; simp at hb
  | cons c rest ih =>
    intro a b hch hb
    have hR : R a c := (List.chain'_cons.1 hch).1
    have hch' : List.Chain' R (c :: rest) := (List.chain'_cons.1 hch).2
    rcases List.mem_cons.1 hb with hb | hb
    · subst hb; exact Relation.ReflTransGen.single hR
    · exact Relation.ReflTransGen.head hR (ih c b hch' hb)

/-- A duplicate-free list included in another list is no longer than it. -/
lemma nodup_subset_length {l1 l2 : List String} (h1 : l1.Nodup)
    (hsub : ∀ x ∈ l1, x ∈ l2) : l1.length ≤ l2.length := by
  classical
  have hsub' : l1.toFinset ⊆ l2.toFinset := by
    intro x hx
    rw [List.mem_toFinset] at hx ⊢
    exact hsub x hx
  calc l1.length = l1.toFinset.card := (List.toFinset_card_of_nodup h1).symm
    _ ≤ l2.toFinset.card := Finset.card_le_card hsub'
    _ ≤ l2.length := l2.toFinset_card_le

/-- Two duplicate-free lists of equal length with one included in the other
have the same elements. -/
lemma nodup_subset_full {l1 l2 : List String} (h1 : l1.Nodup) (h2 : l2.Nodup)
    (hsub : ∀ x ∈ l1, x ∈ l2) (hlen : l2.length ≤ l1.length) :
    ∀ x ∈ l2, x ∈ l1 := by
  classical
  have hf : l1.toFinset = l2.toFinset := by
    apply Finset.eq_of_subset_of_card_le
    · intro x hx
      rw [List.mem_toFinset] at hx ⊢
      exact hsub x hx
    · rw [List.toFinset_card_of_nodup h1, List.toFinset_card_of_nodup h2]
      exact hlen
  intro x hx
  have hx1 : x ∈ l1.toFinset := by
    rw [hf, List.mem_toFinset]
    exact hx
  rwa [List.mem_toFinset] at hx1

/-- When the inner scan reports a self loop, the current node is its own
dependency. -/
lemma scanPreds_cycleSelf {visited parentNodes : List String}
    {nodeName : String} :
    ∀ l : List String,
      scanPreds visited parentNodes nodeName l = ScanResult.cycleSelf →
      nodeName ∈ l := by
  intro l
  induction l with
  | nil => intro h; exact absurd h (by simp [scanPreds])
  | cons p rest ih =>
    intro h
    unfold scanPreds at h
    split_ifs at h with h1 h2 h3
    · have hp : nodeName = p := by simpa using h1
      rw [hp]
      exact List.mem_cons_self p rest
    · exact List.mem_cons_of_mem p (ih h)

/-- When the inner scan reports a back edge, some dependency of the current
node lies on the active path. -/
lemma scanPreds_cycleBack {visited parentNodes : List String}
    {nodeName : String} :
    ∀ l : List String,
      scanPreds visited parentNodes nodeName l = ScanResult.cycleBack →
      ∃ p ∈ l, p ∈ parentNodes := by
  intro l
  induction l with
  | nil => intro h; exact absurd h (by simp [scanPreds])
  | cons p rest ih =>
    intro h
    unfold scanPreds at h
    split_ifs at h with h1 h2 h3
    · exact ⟨p, List.mem_cons_self p rest, by simpa using h3⟩
    · obtain ⟨q, hq, hqp⟩ := ih h
      exact ⟨q, List.mem_cons_of_mem p hq, hqp⟩

/-- When the inner scan descends, the chosen node is an unvisited dependency of
the current node. -/
lemma scanPreds_descend {visited parentNodes : List String}
    {nodeName next : String} :
    ∀ l : List String,
      scanPreds visited parentNodes nodeName l = ScanResult.descend next →
      next ∈ l ∧ next ∉ visited := by
  intro l
  induction l with
  | nil => intro h; exact absurd h (by simp [scanPreds])
  | cons p rest ih =>
    intro h
    unfold scanPreds at h
    split_ifs at h with h1 h2 h3
    · obtain ⟨hq, hqv⟩ := ih h
      exact ⟨List.mem_cons_of_mem p hq, hqv⟩
    · have hp : p = next := ScanResult.descend.inj h
      subst hp
      exact ⟨List.mem_cons_self p rest, by simpa using h2⟩

/-- When the inner scan completes cleanly, every dependency of the current node
is visited, differs from it and is off the active path. -/
lemma scanPreds_clean {visited parentNodes : List String} {nodeName : String} :
    ∀ l : List String,
      scanPreds visited parentNodes nodeName l = ScanResult.clean →
      ∀ p ∈ l, p ≠ nodeName ∧ p ∈ visited ∧ p ∉ parentNodes := by
  intro l
  induction l with
  | nil => intro _ p hp; simp at hp
  | cons p rest ih =>
    intro h q hq
    unfold scanPreds at h
    split_ifs at h with h1 h2 h3
    rcases List.mem_cons.1 hq with hq | hq
    · subst hq
      refine ⟨?_, ?_, ?_⟩
      · intro hqn; rw [hqn] at h1; simp at h1
      · simpa using h2
      · intro hp
        exact h3 (by simpa using hp)
    · exact ih h q hq

/-- Full correctness of the iterative DFS loop of validateForCycles.  The
invariant: the active path (current node consed onto the parent stack, most
recent first) is a chain of dataflow edges ending at the Exit node; visited is
duplicate-free, contains the active path, and every visited node reaches Exit
and is a declared node name; `finished` lists exactly the visited nodes off the
active path, in an order that places every dependency of a finished node
strictly before it.  Under the invariant and sufficient fuel the loop
terminates with CYCLE_FOUND only if the graph has a cycle, with
UNCONNECTED_NODES only if some node does not reach Exit, and with OK exactly
when every node reaches Exit and the graph is acyclic. -/
lemma cyclesLoop_correct (connections : PipelineConnections)
    (nodeNames : List String) (exitName : String)
    (hwf : ∀ kv ∈ connections, ∀ dep ∈ kv.2, dep.1 ∈ nodeNames)
    (hndn : nodeNames.Nodup) :
    ∀ (fuel : Nat) (visited parentNodes : List String) (nodeName : String)
      (finished : List String),
      List.Chain' (Edge connections) (nodeName :: parentNodes) →
      (nodeName :: parentNodes).getLast? = some exitName →
      visited.Nodup →
      (nodeName :: parentNodes).Nodup →
      (∀ x ∈ nodeName :: parentNodes, x ∈ visited) →
      (∀ x ∈ visited, Relation.ReflTransGen (Edge connections) x exitName) →
      (∀ x ∈ visited, x ∈ nodeNames) →
      (∀ x, x ∈ finished ↔ (x ∈ visited ∧ x ∉ parentNodes ∧ x ≠ nodeName)) →
      finished.Nodup →
      (∀ x ∈ finished, ∀ p ∈ predNames connections x,
        p ∈ finished ∧ finished.indexOf p < finished.indexOf x) →
      2 * (nodeNames.length - visited.length) + parentNodes.length + 1 ≤ fuel →
      ∃ r, cyclesLoop connections nodeNames.length fuel visited parentNodes
          nodeName = some r ∧
        ((r = StatusCode.PIPELINE_CYCLE_FOUND ∧
            ∃ u, Relation.TransGen (Edge connections) u u) ∨
         (r = StatusCode.PIPELINE_CONTAINS_UNCONNECTED_NODES ∧
            ∃ n ∈ nodeNames,
              ¬ Relation.ReflTransGen (Edge connections) n exitName) ∨
         (r = StatusCode.OK ∧
            (∀ n ∈ nodeNames,
              Relation.ReflTransGen (Edge connections) n exitName) ∧
            ∀ u, ¬ Relation.TransGen (Edge connections) u u)) := by
  intro fuel
  induction fuel with
  | zero =>
    intro visited parentNodes nodeName finished _ _ _ _ _ _ _ _ _ _ hfuel
    omega
  | succ fuel ih =>
    intro visited parentNodes nodeName finished hchain hlast hndv hnda hact
      hreach hvsub hfin hndf htopo hfuel
    cases hscan : scanPreds visited parentNodes nodeName
        (predNames connections nodeName) with
    | cycleSelf =>
      refine ⟨StatusCode.PIPELINE_CYCLE_FOUND, ?_, ?_⟩
      · simp only [cyclesLoop, hscan]
      · exact Or.inl ⟨rfl, nodeName,
          Relation.TransGen.single (scanPreds_cycleSelf _ hscan)⟩
    | cycleBack =>
      obtain ⟨p, hp, hpp⟩ := scanPreds_cycleBack _ hscan
      refine ⟨StatusCode.PIPELINE_CYCLE_FOUND, ?_, ?_⟩
      · simp only [cyclesLoop, hscan]
      · refine Or.inl ⟨rfl, p, ?_⟩
        have hpath : Relation.ReflTransGen (Edge connections) nodeName p :=
          chain'_reflTransGen parentNodes nodeName p hchain hpp
        exact Relation.TransGen.head' hp hpath
    | descend p =>
      obtain ⟨hpmem, hpnv⟩ := scanPreds_descend _ hscan
      have hedge : Edge connections p nodeName := hpmem
      have hpact : p ∉ nodeName :: parentNodes := fun hc => hpnv (hact p hc)
      have hnn_mem : nodeName ∈ visited :=
        hact nodeName (List.mem_cons_self _ _)
      have hchain' : List.Chain' (Edge connections)
          (p :: nodeName :: parentNodes) := List.chain'_cons.2 ⟨hedge, hchain⟩
      have hlast' : (p :: nodeName :: parentNodes).getLast? = some exitName := by
        rw [List.getLast?_cons_cons]
        exact hlast
      have hndv' : (visited ++ [p]).Nodup := by
        rw [List.nodup_append]
        refine ⟨hndv, List.nodup_singleton p, ?_⟩
        intro a ha hb
        have hap : a = p := by simpa using hb
        subst hap
        exact hpnv ha
      have hnda' : (p :: nodeName :: parentNodes).Nodup :=
        List.nodup_cons.2 ⟨hpact, hnda⟩
      have hact' : ∀ x ∈ p :: nodeName :: parentNodes, x ∈ visited ++ [p] := by
        intro x hx
        rcases List.mem_cons.1 hx with hx | hx
        · subst hx
          exact List.mem_append_right _ (by simp)
        · exact List.mem_append_left _ (hact x hx)
      have hreach' : ∀ x ∈ visited ++ [p],
          Relation.ReflTransGen (Edge connections) x exitName := by
        intro x hx
        rcases List.mem_append.1 hx with hx | hx
        · exact hreach x hx
        · have hxp : x = p := by simpa using hx
          subst hxp
          exact Relation.ReflTransGen.head hedge (hreach nodeName hnn_mem)
      have hvsub' : ∀ x ∈ visited ++ [p], x ∈ nodeNames := by
        intro x hx
        rcases List.mem_append.1 hx with hx | hx
        · exact hvsub x hx
        · have hxp : x = p := by simpa using hx
          subst hxp
          exact edge_source_mem connections nodeNames hwf _ nodeName hedge
      have hfin' : ∀ x, x ∈ finished ↔
          (x ∈ visited ++ [p] ∧ x ∉ nodeName :: parentNodes ∧ x ≠ p) := by
        intro x
        rw [hfin x]
        constructor
        · rintro ⟨hxv, hxp, hxn⟩
          refine ⟨List.mem_append_left _ hxv, ?_, ?_⟩
          · intro hc
            rcases List.mem_cons.1 hc with hc | hc
            · exact hxn hc
            · exact hxp hc
          · intro hc
            subst hc
            exact hpnv hxv
        · rintro ⟨hxv, hxc, hxp⟩
          have hxv' : x ∈ visited := by
            rcases List.mem_append.1 hxv with h | h
            · exact h
            · exact absurd (by simpa using h) hxp
          exact ⟨hxv', fun hc => hxc (List.mem_cons_of_mem _ hc),
            fun hc => hxc (by rw [hc]; exact List.mem_cons_self _ _)⟩
      have hvlen : (visited ++ [p]).length ≤ nodeNames.length :=
        nodup_subset_length hndv' hvsub'
      have hfuel' : 2 * (nodeNames.length - (visited ++ [p]).length) +
          (nodeName :: parentNodes).length + 1 ≤ fuel := by
        simp only [List.length_append, List.length_singleton,
          List.length_cons] at hvlen hfuel ⊢
        omega
      obtain ⟨r, hr, hprop⟩ := ih (visited ++ [p]) (nodeName :: parentNodes) p
        finished hchain' hlast' hndv' hnda' hact' hreach' hvsub' hfin' hndf
        htopo hfuel'
      refine ⟨r, ?_, hprop⟩
      simp only [cyclesLoop, hscan]
      exact hr
    | clean =>
      have hclean := scanPreds_clean _ hscan
      have hnf : nodeName ∉ finished :=
        fun hc => ((hfin nodeName).1 hc).2.2 rfl
      cases parentNodes with
      | cons q ps =>
        have hchain' : List.Chain' (Edge connections) (q :: ps) :=
          (List.chain'_cons.1 hchain).2
        rw [List.getLast?_cons_cons] at hlast
        have hnn_nact : nodeName ∉ q :: ps := (List.nodup_cons.1 hnda).1
        have hnda' : (q :: ps).Nodup := (List.nodup_cons.1 hnda).2
        have hact' : ∀ x ∈ q :: ps, x ∈ visited :=
          fun x hx => hact x (List.mem_cons_of_mem _ hx)
        have hnn_mem : nodeName ∈ visited :=
          hact nodeName (List.mem_cons_self _ _)
        have hfin' : ∀ x, x ∈ finished ++ [nodeName] ↔
            (x ∈ visited ∧ x ∉ ps ∧ x ≠ q) := by
          intro x
          rw [List.mem_append]
          constructor
          · rintro (hx | hx)
            · obtain ⟨hxv, hxp, hxn⟩ := (hfin x).1 hx
              exact ⟨hxv, fun hc => hxp (List.mem_cons_of_mem _ hc),
                fun hc => hxp (by rw [hc]; exact List.mem_cons_self _ _)⟩
            · have hxn : x = nodeName := by simpa using hx
              subst hxn
              refine ⟨hnn_mem, ?_, ?_⟩
              · intro hc
                exact hnn_nact (List.mem_cons_of_mem _ hc)
              · intro hc
                exact hnn_nact (by rw [hc]; exact List.mem_cons_self _ _)
          · rintro ⟨hxv, hxps, hxq⟩
            by_cases hxn : x = nodeName
            · right
              simp [hxn]
            · left
              refine (hfin x).2 ⟨hxv, ?_, hxn⟩
              intro hc
              rcases List.mem_cons.1 hc with hc | hc
              · exact hxq hc
              · exact hxps hc
        have hndf' : (finished ++ [nodeName]).Nodup := by
          rw [List.nodup_append]
          refine ⟨hndf, List.nodup_singleton _, ?_⟩
          intro a ha hb
          have hab : a = nodeName := by simpa using hb
          subst hab
          exact hnf ha
        have htopo' : ∀ x ∈ finished ++ [nodeName],
            ∀ pp ∈ predNames connections x,
            pp ∈ finished ++ [nodeName] ∧
            List.indexOf pp (finished ++ [nodeName]) <
              List.indexOf x (finished ++ [nodeName]) := by
          intro x hx pp hpp
          rcases List.mem_append.1 hx with hx | hx
          · obtain ⟨hp1, hp2⟩ := htopo x hx pp hpp
            refine ⟨List.mem_append_left _ hp1, ?_⟩
            rw [List.indexOf_append_of_mem hp1, List.indexOf_append_of_mem hx]
            exact hp2
          · have hxn : x = nodeName := by simpa using hx
            subst hxn
            obtain ⟨hp1, hp2, hp3⟩ := hclean pp hpp
            have hppf : pp ∈ finished := (hfin pp).2 ⟨hp2, hp3, hp1⟩
            refine ⟨List.mem_append_left _ hppf, ?_⟩
            rw [List.indexOf_append_of_mem hppf,
              List.indexOf_append_of_not_mem hnf]
            have hlt : List.indexOf pp finished < finished.length :=
              List.indexOf_lt_length.2 hppf
            simp
            omega
        have hfuel' : 2 * (nodeNames.length - visited.length) +
            ps.length + 1 ≤ fuel := by
          simp only [List.length_cons] at hfuel
          omega
        obtain ⟨r, hr, hprop⟩ := ih visited ps q (finished ++ [nodeName])
          hchain' hlast hndv hnda' hact' hreach hvsub hfin' hndf' htopo' hfuel'
        refine ⟨r, ?_, hprop⟩
        simp only [cyclesLoop, hscan]
        exact hr
      | nil =>
        have hne : nodeName = exitName := by simpa using hlast
        have hclosure : ∀ x ∈ visited, ∀ pp ∈ predNames connections x,
            pp ∈ visited := by
          intro x hx pp hpp
          by_cases hxn : x = nodeName
          · subst hxn
            exact (hclean pp hpp).2.1
          · have hxf : x ∈ finished := (hfin x).2 ⟨hx, by simp, hxn⟩
            exact ((hfin pp).1 (htopo x hxf pp hpp).1).1
        have hnn_mem : nodeName ∈ visited :=
          hact nodeName (List.mem_cons_self _ _)
        have hcov : ∀ n, Relation.ReflTransGen (Edge connections) n exitName →
            n ∈ visited := by
          intro n hn
          induction hn using Relation.ReflTransGen.head_induction_on with
          | refl => rw [← hne]; exact hnn_mem
          | head hab hbr ihb => exact hclosure _ ihb _ hab
        by_cases hvlen : visited.length = nodeNames.length
        · have hcover : ∀ x ∈ nodeNames, x ∈ visited :=
            nodup_subset_full hndv hndn hvsub (by omega)
          have hvisL : ∀ x ∈ visited, x ∈ finished ++ [nodeName] := by
            intro x hx
            by_cases hxn : x = nodeName
            · subst hxn
              exact List.mem_append_right _ (by simp)
            · exact List.mem_append_left _ ((hfin x).2 ⟨hx, by simp, hxn⟩)
          have hLtopo : ∀ x ∈ finished ++ [nodeName],
              ∀ pp ∈ predNames connections x,
              pp ∈ finished ++ [nodeName] ∧
              List.indexOf pp (finished ++ [nodeName]) <
                List.indexOf x (finished ++ [nodeName]) := by
            intro x hx pp hpp
            rcases List.mem_append.1 hx with hx | hx
            · obtain ⟨hp1, hp2⟩ := htopo x hx pp hpp
              refine ⟨List.mem_append_left _ hp1, ?_⟩
              rw [List.indexOf_append_of_mem hp1, List.indexOf_append_of_mem hx]
              exact hp2
            · have hxn : x = nodeName := by simpa using hx
              subst hxn
              obtain ⟨hp1, hp2, hp3⟩ := hclean pp hpp
              have hppf : pp ∈ finished := (hfin pp).2 ⟨hp2, hp3, hp1⟩
              refine ⟨List.mem_append_left _ hppf, ?_⟩
              rw [List.indexOf_append_of_mem hppf,
                List.indexOf_append_of_not_mem hnf]
              have hlt : List.indexOf pp finished < finished.length :=
                List.indexOf_lt_length.2 hppf
              simp
              omega
          have htrans : ∀ a b, Relation.TransGen (Edge connections) a b →
              b ∈ finished ++ [nodeName] →
              a ∈ finished ++ [nodeName] ∧
              List.indexOf a (finished ++ [nodeName]) <
                List.indexOf b (finished ++ [nodeName]) := by
            intro a b htg
            induction htg with
            | single h =>
              intro hb
              exact hLtopo _ hb _ h
            | tail htg h ihb =>
              intro hc
              obtain ⟨hbL, hlt1⟩ := hLtopo _ hc _ h
              obtain ⟨haL, hlt2⟩ := ihb hbL
              exact ⟨haL, Nat.lt_trans hlt2 hlt1⟩
          have hacyc : ∀ u, ¬ Relation.TransGen (Edge connections) u u := by
            intro u htg
            obtain ⟨c, hc, _⟩ := Relation.TransGen.head'_iff.1 htg
            have hu : u ∈ nodeNames :=
              edge_source_mem connections nodeNames hwf u c hc
            have huL : u ∈ finished ++ [nodeName] := hvisL u (hcover u hu)
            have := (htrans u u htg huL).2
            omega
          refine ⟨StatusCode.OK, ?_, Or.inr (Or.inr ⟨rfl,
            fun n hn => hreach n (hcover n hn), hacyc⟩)⟩
          simp only [cyclesLoop, hscan]
          rw [if_neg (by omega)]
        · refine ⟨StatusCode.PIPELINE_CONTAINS_UNCONNECTED_NODES, ?_,
            Or.inr (Or.inl ⟨rfl, ?_⟩)⟩
          · simp only [cyclesLoop, hscan]
            rw [if_pos hvlen]
          · by_contra hno
            push_neg at hno
            have hcover : ∀ n ∈ nodeNames, n ∈ visited :=
              fun n hn => hcov n (hno n hn)
            have h1 : nodeNames.length ≤ visited.length :=
              nodup_subset_length hndn hcover
            have h2 : visited.length ≤ nodeNames.length :=
              nodup_subset_length hndv hvsub
            omega

/-- C2 (amended): under distinct node names and connections whose dependency
names all belong to the definition, validateForCycles (rooted at the first
EXIT NodeInfo) returns OK iff every node has a path to the Exit node and the
graph is acyclic — reachability from Entry plays no role; the original claim's
"every node lies on some Entry→Exit path" is refuted by the counterexample.
Further, PIPELINE_CYCLE_FOUND is returned only when a cycle actually exists
(the self-loop or active-path revisit of the traversal), and
PIPELINE_CONTAINS_UNCONNECTED_NODES only when some node has no path to Exit. -/
theorem claim_C2 (nodeInfos : List NodeInfo)
    (connections : PipelineConnections) (exitInfo : NodeInfo)
    (hfind : nodeInfos.find? (fun ni => ni.kind == NodeKind.EXIT) =
      some exitInfo)
    (hnd : (nodeInfos.map (fun ni => ni.nodeName)).Nodup)
    (hwf : ∀ kv ∈ connections, ∀ dep ∈ kv.2,
      dep.1 ∈ nodeInfos.map (fun ni => ni.nodeName)) :
    (validateForCycles nodeInfos connections = some StatusCode.OK ↔
      ((∀ n ∈ nodeInfos.map (fun ni => ni.nodeName),
          Relation.ReflTransGen (Edge connections) n exitInfo.nodeName) ∧
        ∀ u, ¬ Relation.TransGen (Edge connections) u u)) ∧
    (validateForCycles nodeInfos connections =
        some StatusCode.PIPELINE_CYCLE_FOUND →
      ∃ u, Relation.TransGen (Edge connections) u u) ∧
    (validateForCycles nodeInfos connections =
        some StatusCode.PIPELINE_CONTAINS_UNCONNECTED_NODES →
      ∃ n ∈ nodeInfos.map (fun ni => ni.nodeName),
        ¬ Relation.ReflTransGen (Edge connections) n exitInfo.nodeName) := by
  have hexitmem : exitInfo ∈ nodeInfos := List.mem_of_find?_eq_some hfind
  have hexitname : exitInfo.nodeName ∈ nodeInfos.map (fun ni => ni.nodeName) :=
    List.mem_map_of_mem _ hexitmem
  have hlen : (nodeInfos.map (fun ni => ni.nodeName)).length =
      nodeInfos.length := List.length_map _ _
  have hvfc : validateForCycles nodeInfos connections =
      cyclesLoop connections nodeInfos.length
        (cyclesFuel nodeInfos connections) [exitInfo.nodeName] []
        exitInfo.nodeName := by
    unfold validateForCycles
    rw [hfind]
  obtain ⟨r, hr, hprop⟩ := cyclesLoop_correct connections
    (nodeInfos.map (fun ni => ni.nodeName)) exitInfo.nodeName hwf hnd
    (cyclesFuel nodeInfos connections) [exitInfo.nodeName] []
    exitInfo.nodeName []
    (List.chain'_singleton _)
    rfl
    (List.nodup_singleton _)
    (List.nodup_singleton _)
    (fun x hx => hx)
    (by
      intro x hx
      have hx' : x = exitInfo.nodeName := by simpa using hx
      rw [hx'])
    (by
      intro x hx
      have hx' : x = exitInfo.nodeName := by simpa using hx
      rw [hx']
      exact hexitname)
    (by
      intro x
      simp only [List.not_mem_nil, false_iff]
      rintro ⟨hx, _, hxe⟩
      exact hxe (by simpa using hx))
    List.nodup_nil
    (by intro x hx; simp at hx)
    (by
      unfold cyclesFuel
      rw [hlen]
      simp only [List.length_singleton, List.length_nil]
      omega)
  rw [hlen] at hr
  have hres : validateForCycles nodeInfos connections = some r := by
    rw [hvfc, hr]
  refine ⟨?_, ?_, ?_⟩
  · constructor
    · intro hOK
      rw [hres] at hOK
      have hrOK : r = StatusCode.OK := Option.some.inj hOK
      subst hrOK
      rcases hprop with ⟨hc, _⟩ | ⟨hc, _⟩ | ⟨_, hall, hacyc⟩
      · exact absurd hc (by decide)
      · exact absurd hc (by decide)
      · exact ⟨hall, hacyc⟩
    · rintro ⟨hall, hacyc⟩
      rw [hres]
      rcases hprop with ⟨hc, u, hcyc⟩ | ⟨hc, n, hn, hnr⟩ | ⟨hc, _, _⟩
      · exact absurd hcyc (hacyc u)
      · exact absurd (hall n hn) hnr
      · rw [hc]
  · intro hCY
    rw [hres] at hCY
    have hrCY : r = StatusCode.PIPELINE_CYCLE_FOUND := Option.some.inj hCY
    subst hrCY
    rcases hprop with ⟨_, hcyc⟩ | ⟨hc, _⟩ | ⟨hc, _, _⟩
    · exact hcyc
    · exact absurd hc (by decide)
    · exact absurd hc (by decide)
  · intro hUN
    rw [hres] at hUN
    have hrUN : r = StatusCode.PIPELINE_CONTAINS_UNCONNECTED_NODES :=
      Option.some.inj hUN
    subst hrUN
    rcases hprop with ⟨hc, _⟩ | ⟨_, hun⟩ | ⟨hc, _, _⟩
    · exact absurd hc (by decide)
    · exact hun
    · exact absurd hc (by decide)

theorem claim_C2_witness :
    (validateForCycles exNodes exConnsMain = some StatusCode.OK ↔
      ((∀ n ∈ exNodes.map (fun ni => ni.nodeName),
          Relation.ReflTransGen (Edge exConnsMain) n exExit.nodeName) ∧
        ∀ u, ¬ Relation.TransGen (Edge exConnsMain) u u)) ∧
    (validateForCycles exNodes exConnsMain =
        some StatusCode.PIPELINE_CYCLE_FOUND →
      ∃ u, Relation.TransGen (Edge exConnsMain) u u) ∧
    (validateForCycles exNodes exConnsMain =
        some StatusCode.PIPELINE_CONTAINS_UNCONNECTED_NODES →
      ∃ n ∈ exNodes.map (fun ni => ni.nodeName),
        ¬ Relation.ReflTransGen (Edge exConnsMain) n exExit.nodeName) :=
  claim_C2 exNodes exConnsMain exExit (by decide) (by decide) (by decide)

/-- DL node named x feeding the Exit node, with no incoming edges: it has a
path to Exit but is unreachable from Entry. -/
def exDlX : NodeInfo :=
  { kind := .DL, nodeName := "x", modelName := "m", modelVersion := none,
    outputNameAliases := [] }

/-- Nodes of the C2 counterexample. -/
def exNodesUn : List NodeInfo := [exEntry, exDlX, exExit]

/-- Edges request→response and x→response; nothing feeds x. -/
def exConnsUn : PipelineConnections :=
  [("response", [("request", [("q", "r")]), ("x", [("detection_out", "r2")])])]

/-- Every edge of exConnsUn points into the node response. -/
lemma exConnsUn_edge_target {d c : String} (h : Edge exConnsUn d c) :
    c = "response" := by
  by_cases hc : c = "response"
  · exact hc
  · exfalso
    unfold Edge predNames connLookup at h
    have hf : exConnsUn.find? (fun kv => kv.1 == c) = none := by
      refine List.find?_eq_none.2 ?_
      intro kv hkv
      have hkv1 : kv.1 = "response" := by
        unfold exConnsUn at hkv
        rcases List.mem_cons.1 hkv with hkv | hkv
        · rw [hkv]
        · simp at hkv
      intro hcc
      rw [hkv1] at hcc
      exact hc (show "response" = c by simpa using hcc).symm
    rw [hf] at h
    simp at h

/-- Nodes reachable from the Entry node request in the C2 counterexample graph:
only request itself and response. -/
lemma exConnsUn_reach_from_entry (u : String)
    (h : Relation.ReflTransGen (Edge exConnsUn) "request" u) :
    u = "request" ∨ u = "response" := by
  induction h with
  | refl => exact Or.inl rfl
  | tail _ hbc _ => exact Or.inr (exConnsUn_edge_target hbc)

/-- Counterexample to C2 as stated: validateForCycles returns OK on a pipeline
in which node x does not lie on any Entry→Exit path (x feeds the Exit node but
nothing reaches x from Entry), so "OK iff acyclic and every node lies on an
Entry→Exit path" is false. -/
theorem claim_C2_counterexample :
    validateForCycles exNodesUn exConnsUn = some StatusCode.OK ∧
    "x" ∈ exNodesUn.map (fun ni => ni.nodeName) ∧
    ¬ (∀ n ∈ exNodesUn.map (fun ni => ni.nodeName),
        liesOnEntryExitPath exConnsUn "request" "response" n) := by
  refine ⟨by decide, by decide, ?_⟩
  intro hall
  obtain ⟨h1, _⟩ := hall "x" (by decide)
  rcases exConnsUn_reach_from_entry "x" h1 with h | h
  · exact absurd h (by decide)
  · exact absurd h (by decide)

end MS
